import Mathlib

/-!
Verification development for the Movie_Project repository: a shallow
embedding of its record stores (JSON and CSV), catalog mutators and
command dispatcher, together with theorems settling the specified
properties.  Python strings are modelled as Lean `String`, Python dicts
as ordered association lists (insertion order preserved, unique keys on
reachable states), Python `int` as `Int`, and Python `float` as `ℚ`
(the float values the program manipulates are decimal literals such as
IMDb ratings, on which rational arithmetic and order coincide with
float arithmetic).  Python library functions used by the code
(`str`/`int`/`float` conversions, `str.split`/`join`/`lower`/`strip`,
`csv` and `json` round-tripping of cells and trees, `sorted`) are
modelled by executable Lean functions defined below.
-/

namespace MovieProject

/-- Decimal digit character test, modelling the digits accepted by the
Python `int` and `float` conversions on the strings this program writes. -/
def isDigitChar (c : Char) : Bool := 48 ≤ c.toNat && c.toNat ≤ 57

/-- Character of a decimal digit (0-9). -/
def digitToChar (d : Nat) : Char := Char.ofNat (d + 48)

/-- Numeric value of a digit character. -/
def charToDigit (c : Char) : Nat := c.toNat - 48

/-- Value of a digit string read left to right. -/
def valOfChars (cs : List Char) : Nat := cs.foldl (fun a c => 10 * a + charToDigit c) 0

/-- Digit characters of a natural number, most significant first, `[]` for 0.
The first argument is fuel; `n` itself is always enough fuel. -/
def natCharsAux : Nat → Nat → List Char
  | 0, _ => []
  | _ + 1, 0 => []
  | fuel + 1, n + 1 => natCharsAux fuel ((n + 1) / 10) ++ [digitToChar ((n + 1) % 10)]

/-- Digit characters of a natural number, most significant first, `[]` for 0. -/
def natChars (n : Nat) : List Char := natCharsAux n n

/-- Digit characters of a natural number, `"0"` for 0, modelling Python `str`
on a nonnegative integer. -/
def natCharsOrZero (n : Nat) : List Char := if n = 0 then ['0'] else natChars n

theorem natCharsAux_eq_of_le :
    ∀ n, ∀ fuel fuel', n ≤ fuel → n ≤ fuel' → natCharsAux fuel n = natCharsAux fuel' n := by
  intro n
  induction n using Nat.strong_induction_on with
  | _ n ih =>
    intro fuel fuel' h h'
    match n, fuel, fuel' with
    | 0, 0, 0 => rfl
    | 0, 0, _ + 1 => rfl
    | 0, _ + 1, 0 => rfl
    | 0, _ + 1, _ + 1 => rfl
    | m + 1, f + 1, f' + 1 =>
      simp only [natCharsAux]
      have hdiv : (m + 1) / 10 < m + 1 := Nat.div_lt_self (Nat.succ_pos m) (by norm_num)
      have h1 : (m + 1) / 10 ≤ f := Nat.le_of_lt_succ (Nat.lt_of_lt_of_le hdiv h)
      have h2 : (m + 1) / 10 ≤ f' := Nat.le_of_lt_succ (Nat.lt_of_lt_of_le hdiv h')
      rw [ih ((m + 1) / 10) hdiv f f' h1 h2]

theorem natChars_zero : natChars 0 = [] := rfl

theorem natChars_eq (n : Nat) (h : n ≠ 0) :
    natChars n = natChars (n / 10) ++ [digitToChar (n % 10)] := by
  match n, h with
  | m + 1, _ =>
    show natCharsAux (m + 1) (m + 1) = _
    simp only [natCharsAux]
    congr 1
    have hdiv : (m + 1) / 10 < m + 1 := Nat.div_lt_self (Nat.succ_pos m) (by norm_num)
    exact natCharsAux_eq_of_le ((m + 1) / 10) m ((m + 1) / 10) (Nat.le_of_lt_succ hdiv) le_rfl

theorem charToDigit_digitToChar (d : Nat) (h : d < 10) : charToDigit (digitToChar d) = d := by
  interval_cases d <;> decide

theorem isDigitChar_digitToChar (d : Nat) (h : d < 10) : isDigitChar (digitToChar d) = true := by
  interval_cases d <;> decide

theorem valOfChars_from (a : Nat) (cs : List Char) :
    cs.foldl (fun a c => 10 * a + charToDigit c) a = a * 10 ^ cs.length + valOfChars cs := by
  induction cs generalizing a with
  | nil => simp [valOfChars]
  | cons c cs ih =>
    simp only [List.foldl_cons, valOfChars, List.length_cons]
    rw [ih (10 * a + charToDigit c), ih (10 * 0 + charToDigit c)]
    ring

theorem valOfChars_append (xs ys : List Char) :
    valOfChars (xs ++ ys) = valOfChars xs * 10 ^ ys.length + valOfChars ys := by
  simp only [valOfChars, List.foldl_append]
  rw [valOfChars_from (List.foldl (fun a c => 10 * a + charToDigit c) 0 xs) ys]
  rfl

theorem valOfChars_natChars (n : Nat) : valOfChars (natChars n) = n := by
  induction n using Nat.strong_induction_on with
  | _ n ih =>
    by_cases h : n = 0
    · subst h; rfl
    · rw [natChars_eq n h, valOfChars_append]
      have hdiv : n / 10 < n := Nat.div_lt_self (Nat.pos_of_ne_zero h) (by norm_num)
      rw [ih (n / 10) hdiv]
      have : valOfChars [digitToChar (n % 10)] = n % 10 := by
        simp [valOfChars, charToDigit_digitToChar (n % 10) (Nat.mod_lt n (by norm_num))]
      rw [this]
      simp only [List.length_singleton, pow_one]
      omega

theorem natChars_all_digits (n : Nat) : ∀ c ∈ natChars n, isDigitChar c = true := by
  induction n using Nat.strong_induction_on with
  | _ n ih =>
    by_cases h : n = 0
    · subst h; simp [natChars_zero]
    · rw [natChars_eq n h]
      intro c hc
      rcases List.mem_append.mp hc with hc | hc
      · exact ih (n / 10) (Nat.div_lt_self (Nat.pos_of_ne_zero h) (by norm_num)) c hc
      · rcases List.mem_singleton.mp hc with rfl
        exact isDigitChar_digitToChar (n % 10) (Nat.mod_lt n (by norm_num))

theorem natChars_length_le (n k : Nat) (h : n < 10 ^ k) : (natChars n).length ≤ k := by
  induction n using Nat.strong_induction_on generalizing k with
  | _ n ih =>
    by_cases h0 : n = 0
    · subst h0; simp [natChars_zero]
    · rw [natChars_eq n h0]
      match k with
      | 0 => exact absurd h (by simp; omega)
      | j + 1 =>
        have hdiv : n / 10 < n := Nat.div_lt_self (Nat.pos_of_ne_zero h0) (by norm_num)
        have hlt : n / 10 < 10 ^ j := by
          rw [Nat.div_lt_iff_lt_mul (by norm_num : (0:Nat) < 10)]
          calc n < 10 ^ (j + 1) := h
            _ = 10 ^ j * 10 := by ring
        have := ih (n / 10) hdiv j hlt
        simp only [List.length_append, List.length_singleton]
        omega

theorem valOfChars_natCharsOrZero (n : Nat) : valOfChars (natCharsOrZero n) = n := by
  by_cases h : n = 0
  · subst h; rfl
  · simp only [natCharsOrZero, if_neg h]; exact valOfChars_natChars n

theorem natCharsOrZero_all_digits (n : Nat) : ∀ c ∈ natCharsOrZero n, isDigitChar c = true := by
  by_cases h : n = 0
  · subst h; simp [natCharsOrZero]; rfl
  · simp only [natCharsOrZero, if_neg h]; exact natChars_all_digits n

theorem natCharsOrZero_ne_nil (n : Nat) : natCharsOrZero n ≠ [] := by
  by_cases h : n = 0
  · subst h; simp [natCharsOrZero]
  · simp only [natCharsOrZero, if_neg h]
    rw [natChars_eq n h]
    simp

/-- Model of Python `str` on a nonnegative integer. -/
def pyStrNat (n : Nat) : String := String.mk (natCharsOrZero n)

/-- Parse of a plain digit string; `none` models a `ValueError`. -/
def parseDigits? (cs : List Char) : Option Nat :=
  if cs ≠ [] ∧ cs.all isDigitChar then some (valOfChars cs) else none

theorem parseDigits?_natCharsOrZero (n : Nat) : parseDigits? (natCharsOrZero n) = some n := by
  have h1 := natCharsOrZero_ne_nil n
  have h2 : (natCharsOrZero n).all isDigitChar = true :=
    List.all_eq_true.mpr (natCharsOrZero_all_digits n)
  simp [parseDigits?, h1, h2, valOfChars_natCharsOrZero]

theorem isDigitChar_ne_minus {c : Char} (h : isDigitChar c = true) : c ≠ '-' := by
  intro he
  rw [he] at h
  exact absurd h (by decide)

theorem isDigitChar_ne_plus {c : Char} (h : isDigitChar c = true) : c ≠ '+' := by
  intro he
  rw [he] at h
  exact absurd h (by decide)

theorem isDigitChar_ne_dot {c : Char} (h : isDigitChar c = true) : c ≠ '.' := by
  intro he
  rw [he] at h
  exact absurd h (by decide)

/-- Characters of the Python `str` of an integer. -/
def intChars (i : Int) : List Char :=
  if i < 0 then '-' :: natCharsOrZero i.natAbs else natCharsOrZero i.natAbs

/-- Model of Python `str` on an integer. -/
def pyStrInt (i : Int) : String := String.mk (intChars i)

/-- Model of Python `int(s)` on the plain decimal strings this program reads
and writes: an optional sign followed by digits; `none` models a `ValueError`. -/
def intOfChars? (cs : List Char) : Option Int :=
  match cs with
  | [] => none
  | c :: rest =>
    if c = '-' then (parseDigits? rest).map (fun n => -(n : Int))
    else if c = '+' then (parseDigits? rest).map (fun n => (n : Int))
    else (parseDigits? (c :: rest)).map (fun n => (n : Int))

/-- Model of Python `int(s)`. -/
def pyInt? (s : String) : Option Int := intOfChars? s.data

theorem intOfChars?_of_digits (cs : List Char) (hne : cs ≠ [])
    (hd : ∀ c ∈ cs, isDigitChar c = true) :
    intOfChars? cs = some (valOfChars cs : Int) := by
  match cs, hne with
  | c :: rest, _ =>
    have hc : isDigitChar c = true := hd c (List.mem_cons_self c rest)
    have hall : (c :: rest).all isDigitChar = true := List.all_eq_true.mpr hd
    simp [intOfChars?, isDigitChar_ne_minus hc, isDigitChar_ne_plus hc, parseDigits?, hall]

theorem pyInt?_pyStrInt (i : Int) : pyInt? (pyStrInt i) = some i := by
  show intOfChars? (intChars i) = some i
  by_cases h : i < 0
  · simp only [intChars, if_pos h]
    have : intOfChars? ('-' :: natCharsOrZero i.natAbs) =
        (parseDigits? (natCharsOrZero i.natAbs)).map (fun n => -(n : Int)) := rfl
    rw [this, parseDigits?_natCharsOrZero]
    have h2 : -((i.natAbs : Nat) : Int) = i := by omega
    simp [h2, abs_of_neg h]
  · simp only [intChars, if_neg h]
    rw [intOfChars?_of_digits _ (natCharsOrZero_ne_nil _) (natCharsOrZero_all_digits _),
      valOfChars_natCharsOrZero]
    congr 1
    omega

/-- Model of the Python `str.split` method with a one-character separator. -/
def splitOnChar (sep : Char) : List Char → List (List Char)
  | [] => [[]]
  | c :: cs =>
    match splitOnChar sep cs with
    | [] => [[c]]
    | r :: rs => if c = sep then [] :: r :: rs else (c :: r) :: rs

theorem splitOnChar_ne_nil (sep : Char) (cs : List Char) : splitOnChar sep cs ≠ [] := by
  match cs with
  | [] => simp [splitOnChar]
  | c :: cs =>
    simp only [splitOnChar]
    match splitOnChar sep cs with
    | [] => simp
    | r :: rs => by_cases h : c = sep <;> simp [h]

theorem splitOnChar_of_not_mem (sep : Char) (cs : List Char) (h : sep ∉ cs) :
    splitOnChar sep cs = [cs] := by
  induction cs with
  | nil => rfl
  | cons c cs ih =>
    have hcs : sep ∉ cs := fun hm => h (List.mem_cons_of_mem c hm)
    have hc : c ≠ sep := fun he => h (he ▸ List.mem_cons_self c cs)
    simp [splitOnChar, ih hcs, hc]

theorem splitOnChar_append_sep (sep : Char) (xs ys : List Char) (h : sep ∉ xs) :
    splitOnChar sep (xs ++ sep :: ys) = xs :: splitOnChar sep ys := by
  induction xs with
  | nil =>
    obtain ⟨r, rs, hr⟩ := List.exists_cons_of_ne_nil (splitOnChar_ne_nil sep ys)
    simp [splitOnChar, hr]
  | cons x xs ih =>
    have hxs : sep ∉ xs := fun hm => h (List.mem_cons_of_mem x hm)
    have hx : x ≠ sep := fun he => h (he ▸ List.mem_cons_self x xs)
    simp only [List.cons_append, splitOnChar, List.append_eq]
    rw [ih hxs]
    simp [hx]

/-- Model of the Python `sep.join` method (as used with `","`). -/
def joinChars (sep : Char) : List (List Char) → List Char
  | [] => []
  | [x] => x
  | x :: y :: rest => x ++ sep :: joinChars sep (y :: rest)

theorem splitOnChar_joinChars (sep : Char) (xs : List (List Char)) (hne : xs ≠ [])
    (h : ∀ x ∈ xs, sep ∉ x) : splitOnChar sep (joinChars sep xs) = xs := by
  match xs, hne with
  | [x], _ =>
    exact splitOnChar_of_not_mem sep x (h x (List.mem_singleton.mpr rfl))
  | x :: y :: rest, _ =>
    show splitOnChar sep (x ++ sep :: joinChars sep (y :: rest)) = _
    rw [splitOnChar_append_sep sep x _ (h x (List.mem_cons_self x _))]
    rw [splitOnChar_joinChars sep (y :: rest) (by simp)
      (fun z hz => h z (List.mem_cons_of_mem x hz))]

/-- Least number of decimal places needed to write `q` exactly, searched up
to 17 places (enough for every value this program stores); `none` models a
float whose shortest repr is not a plain finite decimal of that size. -/
def decExp? (q : ℚ) : Option Nat := (List.range 18).find? (fun k => decide (q.den ∣ 10 ^ k))

/-- Fractional digit characters: exactly `k` digits with leading zeros. -/
def fracChars (k r : Nat) : List Char :=
  List.replicate (k - (natChars r).length) '0' ++ natChars r

/-- Characters of the Python `str` of a float value with a finite decimal
form (Python guarantees `float(str(x)) == x`; this model realizes that
contract with an explicit shortest-decimal printer). -/
def floatChars (q : ℚ) : List Char :=
  match decExp? q with
  | none => ['i', 'n', 'f']
  | some k =>
    let c : Int := (10 ^ k : Int) / (q.den : Int)
    let m : Int := q.num * c
    (if m < 0 then ['-'] else []) ++
      (if k = 0 then natCharsOrZero m.natAbs
       else natCharsOrZero (m.natAbs / 10 ^ k) ++ '.' :: fracChars k (m.natAbs % 10 ^ k))

/-- Model of Python `str` on a float value. -/
def pyStrFloat (q : ℚ) : String := String.mk (floatChars q)

/-- Model of Python `float(s)` on the plain decimal strings this program
reads and writes: digits with an optional decimal point; `none` models a
`ValueError`. -/
def floatOfChars? (cs : List Char) : Option ℚ :=
  match splitOnChar '.' cs with
  | [ip] => (parseDigits? ip).map (fun n => (n : ℚ))
  | [ip, fp] =>
    if (ip ++ fp) ≠ [] ∧ (ip ++ fp).all isDigitChar then
      some ((valOfChars (ip ++ fp) : ℚ) / 10 ^ fp.length)
    else none
  | _ => none

/-- Model of Python `float(s)` including an optional leading sign. -/
def pyFloat? (s : String) : Option ℚ :=
  match s.data with
  | [] => none
  | c :: rest =>
    if c = '-' then (floatOfChars? rest).map (fun q => -q)
    else if c = '+' then floatOfChars? rest
    else floatOfChars? (c :: rest)

theorem fracChars_all_digits (k r : Nat) : ∀ c ∈ fracChars k r, isDigitChar c = true := by
  intro c hc
  rcases List.mem_append.mp hc with hc | hc
  · rcases List.eq_of_mem_replicate hc with rfl
    decide
  · exact natChars_all_digits r c hc

theorem fracChars_length (k r : Nat) (h : r < 10 ^ k) : (fracChars k r).length = k := by
  have := natChars_length_le r k h
  simp only [fracChars, List.length_append, List.length_replicate]
  omega

theorem valOfChars_replicate_zero (j : Nat) : valOfChars (List.replicate j '0') = 0 := by
  induction j with
  | zero => rfl
  | succ j ih =>
    rw [List.replicate_succ]
    show List.foldl _ (10 * 0 + charToDigit '0') _ = 0
    have h0 : 10 * 0 + charToDigit '0' = 0 := by decide
    rw [h0]
    exact ih

theorem valOfChars_fracChars (k r : Nat) : valOfChars (fracChars k r) = r := by
  simp only [fracChars]
  rw [valOfChars_append, valOfChars_replicate_zero, valOfChars_natChars]
  simp

theorem floatOfChars?_digits (cs : List Char) (hne : cs ≠ [])
    (hd : ∀ c ∈ cs, isDigitChar c = true) :
    floatOfChars? cs = some ((valOfChars cs : ℚ)) := by
  have hnodot : '.' ∉ cs := fun hm => absurd (hd _ hm) (by decide)
  have hall : cs.all isDigitChar = true := List.all_eq_true.mpr hd
  simp [floatOfChars?, splitOnChar_of_not_mem '.' cs hnodot, parseDigits?, hne, hall]

theorem floatOfChars?_point (ip fp : List Char) (hipne : ip ≠ [])
    (hip : ∀ c ∈ ip, isDigitChar c = true) (hfp : ∀ c ∈ fp, isDigitChar c = true) :
    floatOfChars? (ip ++ '.' :: fp) =
      some ((valOfChars ip * 10 ^ fp.length + valOfChars fp : ℚ) / 10 ^ fp.length) := by
  have hnodotip : '.' ∉ ip := fun hm => absurd (hip _ hm) (by decide)
  have hnodotfp : '.' ∉ fp := fun hm => absurd (hfp _ hm) (by decide)
  have hall : (ip ++ fp).all isDigitChar = true := by
    refine List.all_eq_true.mpr ?_
    intro c hc
    rcases List.mem_append.mp hc with hc | hc
    · exact hip c hc
    · exact hfp c hc
  have hne2 : ip ++ fp ≠ [] := by
    intro h0
    exact hipne (List.append_eq_nil.mp h0).1
  simp only [floatOfChars?, splitOnChar_append_sep '.' ip fp hnodotip,
    splitOnChar_of_not_mem '.' fp hnodotfp]
  simp only [hne2, hall, ne_eq, not_false_iff, true_and, if_true, and_true]
  rw [valOfChars_append]
  push_cast
  ring_nf

theorem pyFloat?_core (m : Int) (k : Nat) :
    pyFloat? (String.mk ((if m < 0 then ['-'] else []) ++
      (if k = 0 then natCharsOrZero m.natAbs
       else natCharsOrZero (m.natAbs / 10 ^ k) ++ '.' :: fracChars k (m.natAbs % 10 ^ k)))) =
    some ((m : ℚ) / 10 ^ k) := by
  have hbody : floatOfChars?
      (if k = 0 then natCharsOrZero m.natAbs
       else natCharsOrZero (m.natAbs / 10 ^ k) ++ '.' :: fracChars k (m.natAbs % 10 ^ k)) =
      some ((m.natAbs : ℚ) / 10 ^ k) := by
    by_cases hk : k = 0
    · subst hk
      rw [if_pos rfl, floatOfChars?_digits _ (natCharsOrZero_ne_nil _)
        (natCharsOrZero_all_digits _), valOfChars_natCharsOrZero]
      norm_num
    · rw [if_neg hk, floatOfChars?_point _ _ (natCharsOrZero_ne_nil _)
        (natCharsOrZero_all_digits _) (fracChars_all_digits _ _)]
      have hmod : m.natAbs % 10 ^ k < 10 ^ k := Nat.mod_lt _ (by positivity)
      rw [fracChars_length k _ hmod, valOfChars_natCharsOrZero, valOfChars_fracChars]
      congr 2
      have hdm : m.natAbs / 10 ^ k * 10 ^ k + m.natAbs % 10 ^ k = m.natAbs := by
        rw [mul_comm]
        exact Nat.div_add_mod m.natAbs (10 ^ k)
      exact_mod_cast hdm
  by_cases hm : m < 0
  · rw [if_pos hm]
    have hshow : pyFloat? (String.mk ('-' ::
        (if k = 0 then natCharsOrZero m.natAbs
         else natCharsOrZero (m.natAbs / 10 ^ k) ++ '.' :: fracChars k (m.natAbs % 10 ^ k)))) =
        (floatOfChars?
          (if k = 0 then natCharsOrZero m.natAbs
           else natCharsOrZero (m.natAbs / 10 ^ k) ++ '.' :: fracChars k (m.natAbs % 10 ^ k))).map
          (fun q => -q) := rfl
    rw [List.singleton_append, hshow, hbody]
    have ha : ((m.natAbs : ℚ)) = -(m : ℚ) := by
      rw [Int.cast_natAbs]
      exact_mod_cast abs_of_neg hm
    rw [ha]
    show some (-(-(m : ℚ) / 10 ^ k)) = some ((m : ℚ) / 10 ^ k)
    congr 1
    ring
  · rw [if_neg hm, List.nil_append]
    have hsplit : ∃ c0 rest, (if k = 0 then natCharsOrZero m.natAbs
        else natCharsOrZero (m.natAbs / 10 ^ k) ++ '.' :: fracChars k (m.natAbs % 10 ^ k)) =
        c0 :: rest ∧ isDigitChar c0 = true := by
      by_cases hk : k = 0
      · rw [if_pos hk]
        obtain ⟨d0, drest, hd⟩ := List.exists_cons_of_ne_nil (natCharsOrZero_ne_nil m.natAbs)
        refine ⟨d0, drest, hd, natCharsOrZero_all_digits m.natAbs d0 ?_⟩
        rw [hd]
        exact List.mem_cons_self d0 drest
      · rw [if_neg hk]
        obtain ⟨d0, drest, hd⟩ :=
          List.exists_cons_of_ne_nil (natCharsOrZero_ne_nil (m.natAbs / 10 ^ k))
        refine ⟨d0, drest ++ '.' :: fracChars k (m.natAbs % 10 ^ k), ?_,
          natCharsOrZero_all_digits (m.natAbs / 10 ^ k) d0 ?_⟩
        · rw [hd, List.cons_append]
        · rw [hd]
          exact List.mem_cons_self d0 drest
    obtain ⟨c0, rest, hcons, hc0⟩ := hsplit
    have hshow : pyFloat? (String.mk (c0 :: rest)) =
        (if c0 = '-' then (floatOfChars? rest).map (fun q => -q)
         else if c0 = '+' then floatOfChars? rest
         else floatOfChars? (c0 :: rest)) := rfl
    rw [hcons, hshow, if_neg (isDigitChar_ne_minus hc0), if_neg (isDigitChar_ne_plus hc0),
      ← hcons, hbody]
    congr 1
    have h2 : ((m.natAbs : ℚ)) = (m : ℚ) := by
      rw [Int.cast_natAbs]
      exact_mod_cast abs_of_nonneg (not_lt.mp hm)
    rw [h2]

theorem pyFloat?_pyStrFloat (q : ℚ) (k : Nat) (hk : decExp? q = some k) :
    pyFloat? (pyStrFloat q) = some q := by
  have hdvd : q.den ∣ 10 ^ k := by
    have := List.find?_some hk
    simpa using this
  have hdvdz : (q.den : Int) ∣ (10 : Int) ^ k := by exact_mod_cast hdvd
  have hcden : (10 ^ k : Int) / (q.den : Int) * (q.den : Int) = (10 : Int) ^ k :=
    Int.ediv_mul_cancel hdvdz
  show pyFloat? (String.mk (floatChars q)) = some q
  have hfc : floatChars q = (if q.num * ((10 ^ k : Int) / (q.den : Int)) < 0 then ['-'] else []) ++
      (if k = 0 then natCharsOrZero (q.num * ((10 ^ k : Int) / (q.den : Int))).natAbs
       else natCharsOrZero ((q.num * ((10 ^ k : Int) / (q.den : Int))).natAbs / 10 ^ k) ++
         '.' :: fracChars k ((q.num * ((10 ^ k : Int) / (q.den : Int))).natAbs % 10 ^ k)) := by
    simp only [floatChars, hk]
  rw [hfc, pyFloat?_core]
  congr 1
  generalize hc : (10 ^ k : Int) / (q.den : Int) = c at hcden
  have hc0 : (c : ℚ) ≠ 0 := by
    intro h0
    have hz : c = 0 := by exact_mod_cast h0
    rw [hz, zero_mul] at hcden
    have hpos : (0 : Int) < 10 ^ k := by positivity
    omega
  have h10 : ((10 : ℚ)) ^ k = (c : ℚ) * (q.den : ℚ) := by
    have h := congrArg (fun z : Int => (z : ℚ)) hcden
    push_cast at h
    exact h.symm
  push_cast
  rw [h10, mul_comm (c : ℚ) ((q.den : ℚ)), mul_div_mul_right _ _ hc0]
  exact Rat.num_div_den q

/-- Model of the Python `",".join` method on a list of strings. -/
def pyJoin (xs : List String) : String := String.mk (joinChars ',' (xs.map String.data))

/-- Model of the Python `s.split(",")` method. -/
def pySplitComma (s : String) : List String := (splitOnChar ',' s.data).map String.mk

theorem string_mk_data (s : String) : String.mk s.data = s := by
  cases s
  rfl

theorem pySplitComma_pyJoin (xs : List String) (hne : xs ≠ [])
    (h : ∀ x ∈ xs, ',' ∉ x.data) : pySplitComma (pyJoin xs) = xs := by
  show (splitOnChar ',' (joinChars ',' (xs.map String.data))).map String.mk = xs
  rw [splitOnChar_joinChars ',' (xs.map String.data) (by simpa using hne)
    (by intro x hx; obtain ⟨s, hs, rfl⟩ := List.mem_map.mp hx; exact h s hs)]
  rw [List.map_map]
  calc List.map (String.mk ∘ String.data) xs = List.map id xs :=
        List.map_congr_left (fun s _ => string_mk_data s)
    _ = xs := List.map_id xs

theorem joinChars_ne_nil (sep : Char) (x : List Char) (ys : List (List Char)) (hx : x ≠ []) :
    joinChars sep (x :: ys) ≠ [] := by
  match ys with
  | [] => exact hx
  | y :: rest =>
    show x ++ sep :: joinChars sep (y :: rest) ≠ []
    simp [hx]

theorem pyJoin_data_ne_nil (x : String) (rest : List String) (hx : x.data ≠ []) :
    (pyJoin (x :: rest)).data ≠ [] := by
  show joinChars ',' (x.data :: rest.map String.data) ≠ []
  exact joinChars_ne_nil ',' x.data (rest.map String.data) hx

/-- Model of the Python `str.lower` method. -/
def pyLower (s : String) : String := String.mk (s.data.map Char.toLower)

/-- Whitespace characters removed by the Python `str.strip` method. -/
def isWsp (c : Char) : Bool := c == ' ' || c == '\t' || c == '\n' || c == '\r'

/-- Model of the Python `str.strip` method. -/
def pyStrip (s : String) : String :=
  String.mk (((s.data.dropWhile isWsp).reverse.dropWhile isWsp).reverse)

/-- Case-insensitive normalization `title.strip().lower()` used by the
application layer for uniqueness checks. -/
def normTitle (s : String) : String := pyLower (pyStrip s)

/-- Model of the Python dict assignment `d[k] = v`: replaces the value of a
present key in place, otherwise appends the binding at the end (Python
dicts preserve insertion order). -/
def insertKey {α : Type} : List (String × α) → String → α → List (String × α)
  | [], k, v => [(k, v)]
  | p :: ps, k, v => if p.1 = k then (k, v) :: ps else p :: insertKey ps k v

/-- Model of the Python statement `del d[k]` for a present key. -/
def deleteKey {α : Type} : List (String × α) → String → List (String × α)
  | [], _ => []
  | p :: ps, k => if p.1 = k then ps else p :: deleteKey ps k

/-- Model of the Python lookup `d[k]`; `none` models a `KeyError`. -/
def getKey {α : Type} (m : List (String × α)) (k : String) : Option α :=
  (m.find? (fun p => p.1 = k)).map (fun p => p.2)

/-- Model of the Python containment test `k in d`. -/
def hasKey {α : Type} (m : List (String × α)) (k : String) : Bool :=
  m.any (fun p => p.1 = k)

theorem getKey_insertKey_self {α : Type} (m : List (String × α)) (k : String) (v : α) :
    getKey (insertKey m k v) k = some v := by
  induction m with
  | nil => simp [insertKey, getKey, List.find?]
  | cons p ps ih =>
    by_cases h : p.1 = k
    · simp [insertKey, h, getKey, List.find?]
    · simp only [insertKey, if_neg h]
      simp only [getKey, List.find?] at ih ⊢
      rw [show (decide (p.1 = k)) = false by simpa using h]
      exact ih

theorem getKey_insertKey_ne {α : Type} (m : List (String × α)) (k k2 : String) (v : α)
    (h : k2 ≠ k) : getKey (insertKey m k v) k2 = getKey m k2 := by
  induction m with
  | nil =>
    have hk : (decide (k = k2)) = false := by
      simp only [decide_eq_false_iff_not]
      exact fun he => h he.symm
    simp [insertKey, getKey, List.find?, hk]
  | cons p ps ih =>
    by_cases hp : p.1 = k
    · simp only [insertKey, if_pos hp, getKey, List.find?]
      rw [show (decide (k = k2)) = false by simpa using fun he => h he.symm,
        show (decide (p.1 = k2)) = false by simp [hp]; exact fun he => h he.symm]
    · simp only [insertKey, if_neg hp, getKey, List.find?] at ih ⊢
      by_cases hp2 : p.1 = k2
      · rw [show (decide (p.1 = k2)) = true by simpa using hp2]
      · rw [show (decide (p.1 = k2)) = false by simpa using hp2]
        exact ih

theorem length_insertKey_of_hasKey {α : Type} (m : List (String × α)) (k : String) (v : α)
    (h : hasKey m k = true) : (insertKey m k v).length = m.length := by
  induction m with
  | nil => simp [hasKey] at h
  | cons p ps ih =>
    by_cases hp : p.1 = k
    · simp [insertKey, hp]
    · have h2 : hasKey ps k = true := by
        simp only [hasKey, List.any_cons] at h
        rcases Bool.or_eq_true_iff.mp h with h | h
        · exact absurd (by simpa using h) hp
        · exact h
      simp [insertKey, hp, ih h2]

theorem insertKey_of_not_hasKey {α : Type} (m : List (String × α)) (k : String) (v : α)
    (h : hasKey m k = false) : insertKey m k v = m ++ [(k, v)] := by
  induction m with
  | nil => rfl
  | cons p ps ih =>
    simp only [hasKey, List.any_cons, Bool.or_eq_false_iff] at h
    have hp : p.1 ≠ k := by simpa using h.1
    simp [insertKey, hp, ih (by simpa [hasKey] using h.2)]

theorem getKey_deleteKey_ne {α : Type} (m : List (String × α)) (k k2 : String)
    (h : k2 ≠ k) : getKey (deleteKey m k) k2 = getKey m k2 := by
  induction m with
  | nil => rfl
  | cons p ps ih =>
    by_cases hp : p.1 = k
    · simp only [deleteKey, if_pos hp, getKey, List.find?]
      rw [show (decide (p.1 = k2)) = false by simp [hp]; exact fun he => h he.symm]
    · simp only [deleteKey, if_neg hp, getKey, List.find?] at ih ⊢
      by_cases hp2 : p.1 = k2
      · rw [show (decide (p.1 = k2)) = true by simpa using hp2]
      · rw [show (decide (p.1 = k2)) = false by simpa using hp2]
        exact ih

theorem getKey_eq_none_of_not_hasKey {α : Type} (m : List (String × α)) (k : String)
    (h : hasKey m k = false) : getKey m k = none := by
  induction m with
  | nil => rfl
  | cons p ps ih =>
    simp only [hasKey, List.any_cons, Bool.or_eq_false_iff] at h
    have hp : p.1 ≠ k := by simpa using h.1
    simp only [getKey, List.find?]
    rw [show (decide (p.1 = k)) = false by simpa using hp]
    exact ih (by simpa [hasKey] using h.2)

theorem hasKey_of_getKey_some {α : Type} (m : List (String × α)) (k : String) (v : α)
    (h : getKey m k = some v) : hasKey m k = true := by
  by_cases hh : hasKey m k = true
  · exact hh
  · rw [getKey_eq_none_of_not_hasKey m k (by simpa using hh)] at h
    exact absurd h (by simp)

/-- Model of the Python values storable in a JSON file; the `json` module
maps such a tree to text and back losslessly, so the file model keeps the
tree itself. -/
inductive JValue where
  | null : JValue
  | bool (b : Bool) : JValue
  | num (q : ℚ) : JValue
  | str (s : String) : JValue
  | arr (xs : List JValue) : JValue
  | obj (kvs : List (String × JValue)) : JValue

/-- State of the JSON backing file: missing, text that is not valid JSON,
or text holding a JSON value. -/
inductive JFile where
  | missing : JFile
  | invalidSyntax : JFile
  | content (j : JValue) : JFile

/-- StorageJson.save_movies: serializes the full dictionary, replacing any
existing file content in one shot. -/
def jsonSaveMovies (movies : List (String × JValue)) : JFile :=
  JFile.content (JValue.obj movies)

/-- StorageJson.list_movies: returns the parsed dictionary; a missing file,
invalid JSON, or a non-dict top level is reported and yields an empty
dictionary. -/
def jsonListMovies : JFile → List (String × JValue)
  | JFile.missing => []
  | JFile.invalidSyntax => []
  | JFile.content (JValue.obj kvs) => kvs
  | JFile.content _ => []

/-- IStorage.delete_movie (the same code as StorageJson.delete_movie in the
flat-layout variant): load, delete the title when present and save;
otherwise report and leave the file untouched. -/
def deleteMovie (f : JFile) (title : String) : JFile :=
  if hasKey (jsonListMovies f) title then
    jsonSaveMovies (deleteKey (jsonListMovies f) title)
  else f

/-- Python truthiness of `note is not None and note.strip()`. -/
def noteTruthy : Option String → Bool
  | none => false
  | some s => (pyStrip s).data ≠ []

/-- IStorage.update_movie: when the title is present, set `Note` to the
stripped note, or delete the `Note` field when the note is empty, and save;
otherwise report and leave the file untouched.  The result is `none` when
the record value is not a dict (Python would raise a `TypeError`). -/
def updateMovieNote (f : JFile) (title : String) (note : Option String) : Option JFile :=
  match getKey (jsonListMovies f) title with
  | none => some f
  | some (JValue.obj fields) =>
    some (jsonSaveMovies (insertKey (jsonListMovies f) title (JValue.obj
      (if noteTruthy note then insertKey fields "Note" (JValue.str (pyStrip (note.getD "")))
       else if hasKey fields "Note" then deleteKey fields "Note" else fields))))
  | some _ => none

/-- StorageJson.update_movie in the basic variant: when the title is
present, set the `rating` field and save; otherwise report and leave the
file untouched. -/
def updateMovieRating (f : JFile) (title : String) (rating : ℚ) : Option JFile :=
  match getKey (jsonListMovies f) title with
  | none => some f
  | some (JValue.obj fields) =>
    some (jsonSaveMovies (insertKey (jsonListMovies f) title (JValue.obj
      (insertKey fields "rating" (JValue.num rating)))))
  | some _ => none

/-- StorageJson.add_movie in the basic variant: unconditional assignment of
the record for the title, then save. -/
def sjAddMovie (f : JFile) (title : String) (year : Int) (rating : ℚ)
    (poster : Option String) : JFile :=
  jsonSaveMovies (insertKey (jsonListMovies f) title (JValue.obj
    [("year", JValue.num year), ("rating", JValue.num rating),
     ("poster", match poster with | none => JValue.null | some p => JValue.str p)]))

/-- IStorage.add_movie in the extended variant: unconditional assignment of
the record for the title, then save. -/
def istorageAddMovie (f : JFile) (title : String) (year : Int) (rating : ℚ)
    (poster : String) (imdbLink : String) (flagUrls : List String) : JFile :=
  jsonSaveMovies (insertKey (jsonListMovies f) title (JValue.obj
    [("Year", JValue.num year), ("Rating", JValue.num rating), ("Poster", JValue.str poster),
     ("imdbID", JValue.str imdbLink), ("Flag", JValue.arr (flagUrls.map JValue.str))]))

/-- In-memory record shape handled by the extended CSV store
(storage/storage_csv.py). -/
structure XMovie where
  year : Int
  rating : Option ℚ
  poster : String
  note : String
  imdbID : String
  flag : List String
deriving DecidableEq

/-- Rating cell written by the csv module: `None` becomes an empty cell, a
float is written via `str`. -/
def ratingCell : Option ℚ → String
  | none => ""
  | some q => pyStrFloat q

/-- The row StorageCsv.save_movies writes for one movie, at the csv-library
boundary where a row maps column names to cell strings (the csv module
quotes and unquotes cell strings losslessly). -/
def csvRowOf (p : String × XMovie) : List (String × String) :=
  [("Title", p.1), ("Year", pyStrInt p.2.year), ("Rating", ratingCell p.2.rating),
   ("Poster", p.2.poster), ("Note", p.2.note), ("imdbID", p.2.imdbID),
   ("Flag", if p.2.flag ≠ [] then pyJoin p.2.flag else "")]

/-- StorageCsv.save_movies: writes the header and one row per movie,
replacing the file. -/
def csvSaveMovies (movies : List (String × XMovie)) :
    Option (List (List (String × String))) :=
  some (movies.map csvRowOf)

/-- One iteration of the StorageCsv.list_movies row loop, restricted to
rows whose cells are all present as strings - the domain of the
save-then-load round trip, since save_movies always writes every cell
(csvReadRowD below models the loop in full at the csv.DictReader
boundary, including the None fill of short rows, and agrees with this
restriction on its domain): a row whose header lacks one of the six
required columns is skipped; a year or rating cell that fails to convert
is reported and the row skipped; an empty rating cell means no rating; an
empty flag cell means no flags, otherwise the cell is split on commas;
the record is assigned into the dictionary under its title. -/
def csvReadRow (movies : List (String × XMovie)) (row : List (String × String)) :
    List (String × XMovie) :=
  if ["Title", "Year", "Rating", "Poster", "imdbID", "Flag"].all (fun k => hasKey row k) then
    match pyInt? ((getKey row "Year").getD ""),
        (if (getKey row "Rating").getD "" ≠ ""
         then (pyFloat? ((getKey row "Rating").getD "")).map some
         else some none) with
    | some year, some rating =>
      insertKey movies ((getKey row "Title").getD "")
        { year := year, rating := rating,
          poster := (getKey row "Poster").getD "",
          note := (getKey row "Note").getD "",
          imdbID := (getKey row "imdbID").getD "",
          flag := if (getKey row "Flag").getD "" ≠ ""
                  then pySplitComma ((getKey row "Flag").getD "") else [] }
    | _, _ => movies
  else movies

/-- StorageCsv.list_movies: a missing file yields an empty dictionary;
otherwise the data rows are folded in file order. -/
def csvListMovies (file : Option (List (List (String × String)))) :
    List (String × XMovie) :=
  match file with
  | none => []
  | some rows => rows.foldl csvReadRow []

/-- Field values on which the flat CSV encoding is lossless: every flag URL
is nonempty and comma-free, and the rating has a plain finite decimal
form. -/
def wfXMovie (d : XMovie) : Prop :=
  (∀ f ∈ d.flag, f.data ≠ [] ∧ (',' ∈ f.data → False)) ∧
  (∀ q, d.rating = some q → (decExp? q).isSome = true)

theorem string_ne_empty_of_data_ne_nil {s : String} (h : s.data ≠ []) : s ≠ "" := by
  intro he
  rw [he] at h
  exact h rfl

theorem floatChars_ne_nil (q : ℚ) (k : Nat) (hk : decExp? q = some k) : floatChars q ≠ [] := by
  simp only [floatChars, hk]
  by_cases hneg : q.num * ((10 ^ k : Int) / (q.den : Int)) < 0
  · simp [hneg]
  · simp only [if_neg hneg, List.nil_append]
    by_cases hk0 : k = 0
    · simpa [hk0] using natCharsOrZero_ne_nil (q.num * ((10 ^ k : Int) / (q.den : Int))).natAbs
    · simp only [if_neg hk0]
      intro h0
      exact natCharsOrZero_ne_nil _ (List.append_eq_nil.mp h0).1

theorem csvReadRow_csvRowOf (movies : List (String × XMovie)) (t : String) (d : XMovie)
    (hwf : wfXMovie d) : csvReadRow movies (csvRowOf (t, d)) = insertKey movies t d := by
  obtain ⟨year, rating, poster, note, imdbID, flag⟩ := d
  obtain ⟨hflag, hrat⟩ := hwf
  have hguard : (["Title", "Year", "Rating", "Poster", "imdbID", "Flag"].all
      (fun k => hasKey (csvRowOf (t, ⟨year, rating, poster, note, imdbID, flag⟩)) k)) = true := rfl
  have hyear : getKey (csvRowOf (t, ⟨year, rating, poster, note, imdbID, flag⟩)) "Year" =
      some (pyStrInt year) := rfl
  have htitle : getKey (csvRowOf (t, ⟨year, rating, poster, note, imdbID, flag⟩)) "Title" =
      some t := rfl
  have hratc : getKey (csvRowOf (t, ⟨year, rating, poster, note, imdbID, flag⟩)) "Rating" =
      some (ratingCell rating) := rfl
  have hpos : getKey (csvRowOf (t, ⟨year, rating, poster, note, imdbID, flag⟩)) "Poster" =
      some poster := rfl
  have hnote : getKey (csvRowOf (t, ⟨year, rating, poster, note, imdbID, flag⟩)) "Note" =
      some note := rfl
  have himdb : getKey (csvRowOf (t, ⟨year, rating, poster, note, imdbID, flag⟩)) "imdbID" =
      some imdbID := rfl
  have hflagc : getKey (csvRowOf (t, ⟨year, rating, poster, note, imdbID, flag⟩)) "Flag" =
      some (if flag ≠ [] then pyJoin flag else "") := rfl
  simp only [csvReadRow, hguard, if_true, hyear, htitle, hratc, hpos, hnote, himdb, hflagc,
    Option.getD_some]
  rw [pyInt?_pyStrInt year]
  have hratres : (if ratingCell rating ≠ "" then (pyFloat? (ratingCell rating)).map some
      else some none) = some rating := by
    match rating, hrat with
    | none, _ => simp [ratingCell]
    | some q, hrat =>
      obtain ⟨k, hk⟩ := Option.isSome_iff_exists.mp (hrat q rfl)
      have hne : ratingCell (some q) ≠ "" :=
        string_ne_empty_of_data_ne_nil (floatChars_ne_nil q k hk)
      rw [if_pos hne]
      show (pyFloat? (pyStrFloat q)).map some = some (some q)
      rw [pyFloat?_pyStrFloat q k hk]
      rfl
  rw [hratres]
  have hflagres : (if (if flag ≠ [] then pyJoin flag else "") ≠ ""
      then pySplitComma (if flag ≠ [] then pyJoin flag else "") else []) = flag := by
    match flag, hflag with
    | [], _ => simp
    | x :: rest, hflag =>
      have hxne : x.data ≠ [] := (hflag x (List.mem_cons_self x rest)).1
      have hne2 : (x :: rest : List String) ≠ [] := by simp
      rw [if_pos hne2]
      have hjoin : pyJoin (x :: rest) ≠ "" :=
        string_ne_empty_of_data_ne_nil (pyJoin_data_ne_nil x rest hxne)
      rw [if_pos hjoin]
      exact pySplitComma_pyJoin (x :: rest) hne2 (fun f hf => (hflag f hf).2)
  rw [hflagres]

theorem hasKey_append {α : Type} (a b : List (String × α)) (k : String) :
    hasKey (a ++ b) k = (hasKey a k || hasKey b k) := by
  simp [hasKey, List.any_append]

theorem foldl_insertKey_fresh {α : Type} (xs : List (String × α)) :
    ∀ movies : List (String × α),
    (∀ p ∈ xs, hasKey movies p.1 = false) → (xs.map Prod.fst).Nodup →
    xs.foldl (fun m p => insertKey m p.1 p.2) movies = movies ++ xs := by
  induction xs with
  | nil => intro movies _ _; simp
  | cons x xs ih =>
    intro movies hfresh hnodup
    simp only [List.foldl_cons]
    rw [insertKey_of_not_hasKey movies x.1 x.2 (hfresh x (List.mem_cons_self x xs))]
    rw [ih (movies ++ [(x.1, x.2)]) ?_ ?_]
    · simp
    · intro p hp
      rw [hasKey_append]
      have h1 : hasKey movies p.1 = false := hfresh p (List.mem_cons_of_mem x hp)
      have h2 : hasKey [(x.1, x.2)] p.1 = false := by
        simp only [hasKey, List.any_cons, List.any_nil, Bool.or_false]
        simp only [List.map_cons, List.nodup_cons] at hnodup
        have : x.1 ≠ p.1 := by
          intro he
          exact hnodup.1 (he ▸ List.mem_map_of_mem Prod.fst hp)
        simpa using this
      rw [h1, h2]
      rfl
    · have h3 : (x.1 :: xs.map Prod.fst).Nodup := by simpa using hnodup
      exact (List.nodup_cons.mp h3).2

theorem foldl_csvReadRow_map :
    ∀ c : List (String × XMovie), (∀ p ∈ c, wfXMovie p.2) →
    ∀ acc, (c.map csvRowOf).foldl csvReadRow acc =
      c.foldl (fun m p => insertKey m p.1 p.2) acc := by
  intro c
  induction c with
  | nil => intro _ acc; rfl
  | cons p ps ih =>
    intro hwf acc
    simp only [List.map_cons, List.foldl_cons]
    rw [show csvReadRow acc (csvRowOf p) = insertKey acc p.1 p.2 from
      csvReadRow_csvRowOf acc p.1 p.2 (hwf p (List.mem_cons_self p ps))]
    exact ih (fun q hq => hwf q (List.mem_cons_of_mem p hq)) (insertKey acc p.1 p.2)

theorem csvListMovies_csvSaveMovies (c : List (String × XMovie))
    (hnodup : (c.map Prod.fst).Nodup) (hwf : ∀ p ∈ c, wfXMovie p.2) :
    csvListMovies (csvSaveMovies c) = c := by
  show (c.map csvRowOf).foldl csvReadRow [] = c
  rw [foldl_csvReadRow_map c hwf []]
  rw [foldl_insertKey_fresh c [] (fun p _ => rfl) hnodup]
  rfl

/-- In-memory record shape of the basic catalog variant: year and rating. -/
structure BMovie where
  year : Int
  rating : ℚ
deriving DecidableEq

/-- One iteration of the StorageCsv.load_data row loop (src/storage_csv.py):
a row of arity other than three is skipped; the year and rating conversions
are not guarded, so a failing conversion raises a `ValueError` that
propagates to the caller, modelled by `Except.error`. -/
def loadDataRow (movies : List (String × BMovie)) (row : List String) :
    Except String (List (String × BMovie)) :=
  match row with
  | [title, yearS, ratingS] =>
    match pyInt? yearS with
    | none => Except.error ("ValueError: invalid literal for int: " ++ yearS)
    | some year =>
      match pyFloat? ratingS with
      | none => Except.error ("ValueError: could not convert string to float: " ++ ratingS)
      | some rating => Except.ok (insertKey movies title { year := year, rating := rating })
  | _ => Except.ok movies

/-- StorageCsv.load_data: empty catalog for a missing file, otherwise the
rows folded in order; also the body of StorageCsv.list_movies, which just
returns load_data(). -/
def loadData (file : Option (List (List String))) : Except String (List (String × BMovie)) :=
  match file with
  | none => Except.ok []
  | some rows => rows.foldlM loadDataRow []

/-- Record projection used by the MovieApp filter: year and possibly-absent
rating. -/
structure AMovie where
  year : Int
  rating : Option ℚ
deriving DecidableEq

/-- The filter predicate of movies.py filter_movies: `is None` checks for
absent bounds and inclusive comparisons, combined with `and`. -/
def passesBasic (minR : Option ℚ) (startY endY : Option Int) (d : BMovie) : Bool :=
  (match minR with | none => true | some m => decide (m ≤ d.rating)) &&
  ((match startY with | none => true | some s => decide (s ≤ d.year)) &&
   (match endY with | none => true | some e => decide (d.year ≤ e)))

/-- movies.py filter_movies: collects `(title, year, rating)` for the
records passing all provided bounds, in catalog order. -/
def filterMoviesBasic (minR : Option ℚ) (startY endY : Option Int)
    (movies : List (String × BMovie)) : List (String × Int × ℚ) :=
  movies.filterMap (fun p =>
    if passesBasic minR startY endY p.2 then some (p.1, p.2.year, p.2.rating) else none)

/-- Python truthiness of `not bound` for a possibly-absent rating bound:
true both for `None` and for the value 0. -/
def boundFalsyR : Option ℚ → Bool
  | none => true
  | some m => decide (m = 0)

/-- Python truthiness of `not bound` for a possibly-absent year bound. -/
def boundFalsyI : Option Int → Bool
  | none => true
  | some y => decide (y = 0)

/-- The filter predicate of MovieApp._filter_movies: the code tests
`not min_rating` (truthiness) rather than `is None`, and comparing an
absent rating against a present bound raises a `TypeError`, modelled by
`none`. -/
def passesApp (minR : Option ℚ) (startY endY : Option Int) (d : AMovie) : Option Bool :=
  match (if boundFalsyR minR then some true
         else match d.rating with
              | none => none
              | some r => some (decide ((minR.getD 0) ≤ r))) with
  | none => none
  | some b1 => some (b1 &&
      ((if boundFalsyI startY then true else decide ((startY.getD 0) ≤ d.year)) &&
       (if boundFalsyI endY then true else decide (d.year ≤ (endY.getD 0)))))

/-- The filtering loop of MovieApp._filter_movies; `none` models the
uncaught `TypeError` from comparing `None` with a float bound. -/
def filterMoviesApp (minR : Option ℚ) (startY endY : Option Int)
    (movies : List (String × AMovie)) : Option (List (String × Int × Option ℚ)) :=
  movies.foldlM (fun acc p =>
    (passesApp minR startY endY p.2).map (fun b =>
      if b then acc ++ [(p.1, p.2.year, p.2.rating)] else acc)) []

/-- The filter contract as the spec words it for the basic records: a
record passes iff it satisfies every provided bound, inclusively; an
absent bound imposes no constraint.  Definition written from the spec for
comparison against the code. -/
def specPassesBasic (minR : Option ℚ) (startY endY : Option Int) (d : BMovie) : Prop :=
  (∀ m, minR = some m → m ≤ d.rating) ∧
  (∀ s, startY = some s → s ≤ d.year) ∧
  (∀ e, endY = some e → d.year ≤ e)

/-- The filter contract as the spec words it for records with a
possibly-absent rating.  Definition written from the spec for comparison
against the code. -/
def specPassesApp (minR : Option ℚ) (startY endY : Option Int) (d : AMovie) : Prop :=
  (∀ m, minR = some m → ∃ r, d.rating = some r ∧ m ≤ r) ∧
  (∀ s, startY = some s → s ≤ d.year) ∧
  (∀ e, endY = some e → d.year ≤ e)

/-- Stable insertion with respect to a decidable comparison. -/
def insertLe {α : Type} (le : α → α → Prop) [DecidableRel le] (x : α) : List α → List α
  | [] => [x]
  | y :: ys => if le x y then x :: y :: ys else y :: insertLe le x ys

/-- Stable sort, modelling the ordering contracts of Python sorted and of
the ranked list returned by fuzzywuzzy process.extract. -/
def sortLe {α : Type} (le : α → α → Prop) [DecidableRel le] (l : List α) : List α :=
  l.foldr (insertLe le) []

theorem mem_insertLe {α : Type} (le : α → α → Prop) [DecidableRel le] (x : α) (l : List α)
    (z : α) : z ∈ insertLe le x l ↔ z = x ∨ z ∈ l := by
  induction l with
  | nil => simp [insertLe]
  | cons y ys ih =>
    by_cases h : le x y
    · simp [insertLe, h]
    · simp only [insertLe, if_neg h, List.mem_cons, ih]
      tauto

theorem pairwise_insertLe {α : Type} (le : α → α → Prop) [DecidableRel le]
    (htot : ∀ a b, le a b ∨ le b a)
    (htrans : ∀ a b c, le a b → le b c → le a c) (x : α) (l : List α)
    (h : l.Pairwise le) : (insertLe le x l).Pairwise le := by
  induction l with
  | nil => simp [insertLe]
  | cons y ys ih =>
    rcases List.pairwise_cons.mp h with ⟨hy, hys⟩
    by_cases hle : le x y
    · rw [insertLe, if_pos hle]
      refine List.pairwise_cons.mpr ⟨?_, h⟩
      intro z hz
      rcases List.mem_cons.mp hz with rfl | hz
      · exact hle
      · exact htrans x y z hle (hy z hz)
    · rw [insertLe, if_neg hle]
      refine List.pairwise_cons.mpr ⟨?_, ih hys⟩
      intro z hz
      rcases (mem_insertLe le x ys z).mp hz with rfl | hz
      · rcases htot z y with hxy | hyx
        · exact absurd hxy hle
        · exact hyx
      · exact hy z hz

theorem pairwise_sortLe {α : Type} (le : α → α → Prop) [DecidableRel le]
    (htot : ∀ a b, le a b ∨ le b a)
    (htrans : ∀ a b c, le a b → le b c → le a c) (l : List α) :
    (sortLe le l).Pairwise le := by
  induction l with
  | nil => simp [sortLe]
  | cons x xs ih => exact pairwise_insertLe le htot htrans x (sortLe le xs) ih

/-- Model of Python sorted on rationals, ascending. -/
def pySorted (rs : List ℚ) : List ℚ := sortLe (fun a b => a ≤ b) rs

/-- Model of Python statistics.median: the middle element of the sorted
data, or the mean of the two middle elements for an even count. -/
def pyMedian (rs : List ℚ) : ℚ :=
  if rs.length % 2 = 1 then (pySorted rs).getD (rs.length / 2) 0
  else ((pySorted rs).getD (rs.length / 2 - 1) 0 + (pySorted rs).getD (rs.length / 2) 0) / 2

/-- Model of Python max on a nonempty list. -/
def pyMax (rs : List ℚ) : ℚ :=
  match rs with
  | [] => 0
  | x :: xs => xs.foldl max x

/-- Model of Python min on a nonempty list. -/
def pyMin (rs : List ℚ) : ℚ :=
  match rs with
  | [] => 0
  | x :: xs => xs.foldl min x

/-- The ratings list movie_statistics builds. -/
def ratingsOf (movies : List (String × BMovie)) : List ℚ := movies.map (fun p => p.2.rating)

/-- movies.py movie_statistics: average, median, the titles whose rating
equals the maximum, and the titles whose rating equals the minimum;
`none` for an empty catalog (the command only reports emptiness). -/
def movieStatistics (movies : List (String × BMovie)) :
    Option (ℚ × ℚ × List String × List String) :=
  if movies = [] then none
  else
    some ((ratingsOf movies).sum / ((ratingsOf movies).length : ℚ), pyMedian (ratingsOf movies),
      movies.filterMap (fun p =>
        if p.2.rating = pyMax (ratingsOf movies) then some p.1 else none),
      movies.filterMap (fun p =>
        if p.2.rating = pyMin (ratingsOf movies) then some p.1 else none))

/-- Contract of fuzzywuzzy process.extract (an external collaborator): the
`limit` best-scoring titles in descending score order, scored by the
supplied similarity function. -/
def extractTop (score : String → String → Nat) (query : String) (titles : List String)
    (limit : Nat) : List (String × Nat) :=
  (sortLe (fun a b : String × Nat => b.2 ≤ a.2)
    (titles.map (fun t => (t, score query t)))).take limit

inductive SearchResult where
  | usageError : SearchResult
  | found (titles : List String) : SearchResult
  | noneFound : SearchResult
deriving DecidableEq

/-- The thresholded candidate list shared by both search variants: the top
five matches with similarity strictly above 60. -/
def searchCandidates (score : String → String → Nat) (query : String)
    (titles : List String) : List (String × Nat) :=
  (extractTop score query titles 5).filter (fun m => decide (60 < m.2))

/-- MovieApp._command_search: lowercases the query, refuses queries shorter
than two characters with a usage message, otherwise reports the candidate
titles or that none were similar. -/
def searchMovieApp (score : String → String → Nat) (query : String)
    (movies : List (String × AMovie)) : SearchResult :=
  if (pyLower query).length < 2 then SearchResult.usageError
  else
    let similar := (searchCandidates score (pyLower query) (movies.map Prod.fst)).map Prod.fst
    if similar ≠ [] then SearchResult.found similar else SearchResult.noneFound

/-- movies.py search_movie: the same search with no minimum-length
refusal. -/
def searchMovieBasic (score : String → String → Nat) (query : String)
    (movies : List (String × BMovie)) : SearchResult :=
  let similar := (searchCandidates score (pyLower query) (movies.map Prod.fst)).map Prod.fst
  if similar ≠ [] then SearchResult.found similar else SearchResult.noneFound

/-- The data MovieApp._command_add extracts from a successful OMDb fetch;
the network fetch, the numeric conversion of the raw response fields and
the country-mapping download happen upstream of the logic modelled here. -/
structure FetchedData where
  title : String
  year : Option Int
  rating : Option ℚ
  poster : Option String
  imdbID : Option String
  country : Option String

/-- The flag URLs _command_add derives from the Country field: the first
three comma-separated names, stripped, looked up in the country mapping;
names missing from the mapping are reported and skipped. -/
def computeFlagUrls (mapping : List (String × String)) (country : Option String) :
    List String :=
  match country with
  | none => []
  | some cf =>
    if cf = "" then []
    else ((pySplitComma cf).take 3).filterMap (fun c =>
      (getKey mapping (pyStrip c)).map
        (fun code => "https://flagsapi.com/" ++ code ++ "/flat/64.png"))

inductive AddResult where
  | fetchFailed : AddResult
  | alreadyExists : AddResult
  | missingDetails : AddResult
  | added : AddResult
deriving DecidableEq

/-- Python truthiness of a string. -/
def truthyStr (s : String) : Bool := s ≠ ""

/-- Python truthiness of a possibly-absent integer. -/
def truthyOptInt : Option Int → Bool
  | none => false
  | some y => decide (¬ y = 0)

/-- Python truthiness of a possibly-absent float. -/
def truthyOptRat : Option ℚ → Bool
  | none => false
  | some r => decide (¬ r = 0)

/-- Python truthiness of a possibly-absent string. -/
def truthyOptStr : Option String → Bool
  | none => false
  | some s => s ≠ ""

/-- MovieApp._command_add after the fetch: a failed fetch aborts; a title
whose stripped lowercased form matches an existing key is rejected without
persisting; the IMDb link and flag URLs are derived; unless every field is
truthy the add is abandoned; otherwise the movie is added through the
storage and the catalog reloaded. -/
def commandAdd (mapping : List (String × String)) (f : JFile) (d : Option FetchedData) :
    AddResult × JFile :=
  match d with
  | none => (AddResult.fetchFailed, f)
  | some data =>
    if (jsonListMovies f).any (fun p => normTitle p.1 = normTitle data.title) then
      (AddResult.alreadyExists, f)
    else
      let imdbLink := if truthyOptStr data.imdbID then
          some ("https://www.imdb.com/title/" ++ data.imdbID.getD "" ++ "/") else none
      let flagUrls := computeFlagUrls mapping data.country
      if truthyStr data.title && truthyOptInt data.year && truthyOptRat data.rating &&
          truthyOptStr data.poster && truthyOptStr imdbLink && decide (¬ flagUrls = []) then
        (AddResult.added, istorageAddMovie f data.title (data.year.getD 0)
          (data.rating.getD 0) (data.poster.getD "") (imdbLink.getD "") flagUrls)
      else (AddResult.missingDetails, f)

/-- movies.py adding_new_movie after the prompts: reject a title whose
lowercased form matches an existing key, otherwise add through the basic
storage (poster is passed as None). -/
def addingNewMovie (f : JFile) (title : String) (year : Int) (rating : ℚ) :
    AddResult × JFile :=
  if (jsonListMovies f).any (fun p => pyLower p.1 = pyLower title) then
    (AddResult.alreadyExists, f)
  else (AddResult.added, sjAddMovie f title year rating none)

/-- Python exception outcomes relevant to the dispatch-loop model. -/
inductive PyErr where
  | typeError : PyErr
  | eof : PyErr
deriving DecidableEq

inductive RunResult where
  | exited : RunResult
  | inputExhausted : RunResult
  | raised (e : PyErr) : RunResult
deriving DecidableEq

/-- The minimum-rating prompt loop of MovieApp._filter_movies: a blank
input selects no bound; an input that parses as a float is accepted but -
the range check and `break` being mis-indented into the except branch -
the loop simply prompts again; an input that fails to parse enters the
except branch, whose range check then compares an int with the unconverted
string and raises an uncaught `TypeError`. -/
def minRatingPrompt : List String → Except PyErr (Option ℚ × List String)
  | [] => Except.error PyErr.eof
  | s :: rest =>
    if s = "" then Except.ok (none, rest)
    else match pyFloat? s with
      | some _ => minRatingPrompt rest
      | none => Except.error PyErr.typeError

/-- The start-year and end-year prompt loops of MovieApp._filter_movies,
with the same mis-indented validation. -/
def yearPrompt : List String → Except PyErr (Option Int × List String)
  | [] => Except.error PyErr.eof
  | s :: rest =>
    if s = "" then Except.ok (none, rest)
    else match pyInt? s with
      | some _ => yearPrompt rest
      | none => Except.error PyErr.typeError

/-- MovieApp._filter_movies as invoked by the dispatcher: the empty-catalog
guard, the three prompts, then the filtering loop. -/
def filterMoviesOp (movies : List (String × AMovie)) (inputs : List String) :
    Except PyErr (List String) :=
  if movies = [] then Except.ok inputs
  else
    match minRatingPrompt inputs with
    | Except.error e => Except.error e
    | Except.ok (minR, rest1) =>
      match yearPrompt rest1 with
      | Except.error e => Except.error e
      | Except.ok (startY, rest2) =>
        match yearPrompt rest2 with
        | Except.error e => Except.error e
        | Except.ok (endY, rest3) =>
          match filterMoviesApp minR startY endY movies with
          | none => Except.error PyErr.typeError
          | some _ => Except.ok rest3

/-- MovieApp.run: each iteration reads one menu selection; a non-integer
selection is reported and the loop continues directly; selection 0 prints
Bye and exits; selections 1 through 11 invoke the bound operation - whose
uncaught exceptions propagate out of run and terminate it - and then
consume the press-enter input; any other integer is reported as invalid
and also reaches the press-enter input.  The operation table is a
parameter; the recursion is driven by fuel, each iteration consuming at
least one input. -/
def runApp (ops : Nat → List String → Except PyErr (List String)) :
    Nat → List String → RunResult
  | 0, _ => RunResult.inputExhausted
  | _ + 1, [] => RunResult.inputExhausted
  | fuel + 1, choiceStr :: rest =>
    match pyInt? choiceStr with
    | none => runApp ops fuel rest
    | some c =>
      if c = 0 then RunResult.exited
      else if 1 ≤ c ∧ c ≤ 11 then
        match ops c.toNat rest with
        | Except.error e => RunResult.raised e
        | Except.ok rest2 =>
          match rest2 with
          | [] => RunResult.inputExhausted
          | _ :: rest3 => runApp ops fuel rest3
      else
        match rest with
        | [] => RunResult.inputExhausted
        | _ :: rest3 => runApp ops fuel rest3

/-- The operation table used to exercise the dispatcher model: slot 10 is
the modelled filter command; the other slots stand for operations that
complete normally without consuming input (their behaviour is not on the
execution paths exercised). -/
def appOps (movies : List (String × AMovie)) :
    Nat → List String → Except PyErr (List String) :=
  fun n inputs => if n = 10 then filterMoviesOp movies inputs else Except.ok inputs

/-- Record shape loaded by storage/storage_csv.py list_movies at the
csv.DictReader boundary: a short data row has its missing trailing cells
filled with None, so poster, note and imdbID are stored as read and may
be None. -/
structure XMovieD where
  year : Int
  rating : Option ℚ
  poster : Option String
  note : Option String
  imdbID : Option String
  flag : List String
deriving DecidableEq

/-- One iteration of the StorageCsv.list_movies row loop at the
csv.DictReader boundary, where a row maps each header name to a cell that
is None when the data row was too short (DictReader fills missing trailing
cells with its restval None; the cells of a processed row are filled from
the front, so the Title cell is never the fill value, and is read with a
default that reachable rows never use).  A row whose header lacks one of
the six required columns is skipped; a year or rating cell that is a
string but fails to convert raises a ValueError that is caught, reported,
and skips the row; but a Year cell that is the None fill makes int(None)
raise a TypeError, which the except ValueError clause does not catch, so
it propagates to the caller; a Rating cell that is the None fill is falsy
and simply yields an absent rating, and likewise a None Flag cell yields
no flags. -/
def csvReadRowD (movies : List (String × XMovieD)) (row : List (String × Option String)) :
    Except PyErr (List (String × XMovieD)) :=
  if ["Title", "Year", "Rating", "Poster", "imdbID", "Flag"].all (fun k => hasKey row k) then
    match (getKey row "Year").getD none with
    | none => Except.error PyErr.typeError
    | some yearS =>
      match pyInt? yearS with
      | none => Except.ok movies
      | some year =>
        match (match (getKey row "Rating").getD none with
               | none => some none
               | some rs => if rs = "" then some none else (pyFloat? rs).map some) with
        | none => Except.ok movies
        | some rating =>
          Except.ok (insertKey movies (((getKey row "Title").getD none).getD "")
            { year := year, rating := rating,
              poster := (getKey row "Poster").getD none,
              note := (match getKey row "Note" with
                       | none => some ""
                       | some c => c),
              imdbID := (getKey row "imdbID").getD none,
              flag := (match (getKey row "Flag").getD none with
                       | none => []
                       | some fs => if fs = "" then [] else pySplitComma fs) })
  else Except.ok movies

/-- storage/storage_csv.py list_movies at the csv.DictReader boundary: an
empty catalog for a missing file, otherwise the data rows folded in file
order, an uncaught TypeError propagating to the caller. -/
def csvListMoviesD (file : Option (List (List (String × Option String)))) :
    Except PyErr (List (String × XMovieD)) :=
  match file with
  | none => Except.ok []
  | some rows => rows.foldlM csvReadRowD []

/-- Embedding of the all-cells-present records into the DictReader-boundary
record shape. -/
def xmovieD (d : XMovie) : XMovieD :=
  ⟨d.year, d.rating, some d.poster, some d.note, some d.imdbID, d.flag⟩

theorem hasKey_map_val {α β : Type} (row : List (String × α)) (g : α → β) (k : String) :
    hasKey (row.map (fun p => (p.1, g p.2))) k = hasKey row k := by
  induction row with
  | nil => rfl
  | cons p ps ih =>
    simp only [List.map_cons, hasKey, List.any_cons] at ih ⊢
    rw [ih]

theorem getKey_map_val {α β : Type} (row : List (String × α)) (g : α → β) (k : String) :
    getKey (row.map (fun p => (p.1, g p.2))) k = (getKey row k).map g := by
  induction row with
  | nil => rfl
  | cons p ps ih =>
    by_cases h : p.1 = k
    · simp only [List.map_cons, getKey, List.find?]
      rw [show (decide (p.1 = k)) = true by simpa using h]
      rfl
    · simp only [List.map_cons, getKey, List.find?] at ih ⊢
      rw [show (decide (p.1 = k)) = false by simpa using h]
      exact ih

theorem getKey_isSome_of_hasKey {α : Type} (m : List (String × α)) (k : String)
    (h : hasKey m k = true) : ∃ v, getKey m k = some v := by
  induction m with
  | nil => simp [hasKey] at h
  | cons p ps ih =>
    by_cases hp : p.1 = k
    · refine ⟨p.2, ?_⟩
      simp only [getKey, List.find?]
      rw [show (decide (p.1 = k)) = true by simpa using hp]
      rfl
    · have h2 : hasKey ps k = true := by
        simp only [hasKey, List.any_cons] at h
        rcases Bool.or_eq_true_iff.mp h with hx | hx
        · exact absurd (by simpa using hx) hp
        · exact hx
      obtain ⟨v, hv⟩ := ih h2
      refine ⟨v, ?_⟩
      simp only [getKey, List.find?]
      rw [show (decide (p.1 = k)) = false by simpa using hp]
      exact hv

theorem insertKey_map_val {α β : Type} (m : List (String × α)) (g : α → β) (k : String)
    (v : α) :
    insertKey (m.map (fun p => (p.1, g p.2))) k (g v) =
      (insertKey m k v).map (fun p => (p.1, g p.2)) := by
  induction m with
  | nil => rfl
  | cons p ps ih =>
    by_cases h : p.1 = k
    · simp [insertKey, h]
    · simp [insertKey, h, ih]

theorem insertKey_map_val_rev {α β : Type} (m : List (String × α)) (g : α → β) (k : String)
    (v : α) :
    (insertKey m k v).map (fun p => (p.1, g p.2)) =
      insertKey (m.map (fun p => (p.1, g p.2))) k (g v) :=
  (insertKey_map_val m g k v).symm

theorem csvReadRowD_agrees (movies : List (String × XMovie)) (row : List (String × String)) :
    csvReadRowD (movies.map (fun p => (p.1, xmovieD p.2))) (row.map (fun p => (p.1, some p.2))) =
      Except.ok ((csvReadRow movies row).map (fun p => (p.1, xmovieD p.2))) := by
  have hguard : (["Title", "Year", "Rating", "Poster", "imdbID", "Flag"].all
      (fun k => hasKey (row.map (fun p => (p.1, some p.2))) k)) =
      (["Title", "Year", "Rating", "Poster", "imdbID", "Flag"].all (fun k => hasKey row k)) := by
    simp only [List.all_cons, List.all_nil, hasKey_map_val]
  by_cases hg : (["Title", "Year", "Rating", "Poster", "imdbID", "Flag"].all
      (fun k => hasKey row k)) = true
  · have h6 := List.all_eq_true.mp hg
    obtain ⟨ts, hT⟩ := getKey_isSome_of_hasKey row "Title" (h6 "Title" (by decide))
    obtain ⟨ys, hY⟩ := getKey_isSome_of_hasKey row "Year" (h6 "Year" (by decide))
    obtain ⟨rs, hR⟩ := getKey_isSome_of_hasKey row "Rating" (h6 "Rating" (by decide))
    obtain ⟨ps, hP⟩ := getKey_isSome_of_hasKey row "Poster" (h6 "Poster" (by decide))
    obtain ⟨is0, hI⟩ := getKey_isSome_of_hasKey row "imdbID" (h6 "imdbID" (by decide))
    obtain ⟨fs, hF⟩ := getKey_isSome_of_hasKey row "Flag" (h6 "Flag" (by decide))
    simp only [csvReadRowD, csvReadRow, hguard, hg, if_true, getKey_map_val,
      hT, hY, hR, hP, hI, hF, Option.map_some', Option.getD_some]
    cases hpi : pyInt? ys with
    | none => rfl
    | some y =>
      by_cases hrs : rs = ""
      · subst hrs
        cases hN : getKey row "Note" with
        | none =>
          by_cases hfs : fs = ""
          · subst hfs
            simp [insertKey_map_val_rev]
            rfl
          · simp [insertKey_map_val_rev, hfs]
            rfl
        | some ns =>
          by_cases hfs : fs = ""
          · subst hfs
            simp [insertKey_map_val_rev]
            rfl
          · simp [insertKey_map_val_rev, hfs]
            rfl
      · cases hpf : pyFloat? rs with
        | none => simp [hrs, hpf]
        | some q =>
          cases hN : getKey row "Note" with
          | none =>
            by_cases hfs : fs = ""
            · subst hfs
              simp [insertKey_map_val_rev, hrs, hpf]
              rfl
            · simp [insertKey_map_val_rev, hrs, hpf, hfs]
              rfl
          | some ns =>
            by_cases hfs : fs = ""
            · subst hfs
              simp [insertKey_map_val_rev, hrs, hpf]
              rfl
            · simp [insertKey_map_val_rev, hrs, hpf, hfs]
              rfl
  · have hg2 : (["Title", "Year", "Rating", "Poster", "imdbID", "Flag"].all
        (fun k => hasKey (row.map (fun p => (p.1, some p.2))) k)) ≠ true := by
      rw [hguard]
      exact hg
    simp [csvReadRowD, csvReadRow, hg, hg2]

/-- C1 (counterexample): the claim fails as stated: the CSV round trip is
not lossless on every catalog.  A flag URL containing a comma is written as
part of the comma-joined Flag cell and split back into two URLs on reload,
changing the field values of the record. -/
theorem C1_counterexample :
    csvListMovies (csvSaveMovies [("M", ⟨2000, none, "p", "n", "id", ["a,b"]⟩)]) =
      [("M", ⟨2000, none, "p", "n", "id", ["a", "b"]⟩)] ∧
    csvListMovies (csvSaveMovies [("M", ⟨2000, none, "p", "n", "id", ["a,b"]⟩)]) ≠
      [("M", ⟨2000, none, "p", "n", "id", ["a,b"]⟩)] :=
  ⟨by decide, by decide⟩

/-- C1 (amended): loading immediately after saving reproduces the catalog
exactly for the JSON store on every catalog, and for the CSV store on
every catalog with distinct titles whose records are well formed for the
flat encoding (ratings with a finite decimal form; flag URLs nonempty and
comma-free). -/
theorem C1_roundtrip_amended (cj : List (String × JValue)) (cc : List (String × XMovie))
    (hnodup : (cc.map Prod.fst).Nodup) (hwf : ∀ p ∈ cc, wfXMovie p.2) :
    jsonListMovies (jsonSaveMovies cj) = cj ∧ csvListMovies (csvSaveMovies cc) = cc :=
  ⟨rfl, csvListMovies_csvSaveMovies cc hnodup hwf⟩

/-- Witness for C1: the round trip evaluated on a concrete one-movie
catalog in each store. -/
theorem C1_roundtrip_amended_witness :
    jsonListMovies (jsonSaveMovies [("M", JValue.num 5)]) = [("M", JValue.num 5)] ∧
    csvListMovies (csvSaveMovies [("M", ⟨2000, some 8, "p", "n", "id", ["a"]⟩)]) =
      [("M", ⟨2000, some 8, "p", "n", "id", ["a"]⟩)] :=
  C1_roundtrip_amended [("M", JValue.num 5)] [("M", ⟨2000, some 8, "p", "n", "id", ["a"]⟩)]
    (by decide)
    (by
      intro p hp
      rcases List.mem_singleton.mp hp with rfl
      refine ⟨?_, ?_⟩
      · intro fl hfl
        rcases List.mem_singleton.mp hfl with rfl
        exact ⟨by decide, by decide⟩
      · intro q hq
        rcases Option.some.inj hq with rfl
        decide)

/-- C4: when the title is absent from the catalog, delete_movie and
update_movie (both the note variant of IStorage and the rating variant of
the basic StorageJson) report the lookup error, perform no save, and leave
the backing file - and hence the catalog - unchanged. -/
theorem C4_lookup_error_noop (f : JFile) (title : String) (note : Option String) (rating : ℚ)
    (h : hasKey (jsonListMovies f) title = false) :
    deleteMovie f title = f ∧ updateMovieNote f title note = some f ∧
    updateMovieRating f title rating = some f := by
  have hget : getKey (jsonListMovies f) title = none := getKey_eq_none_of_not_hasKey _ _ h
  refine ⟨?_, ?_, ?_⟩
  · simp [deleteMovie, h]
  · simp [updateMovieNote, hget]
  · simp [updateMovieRating, hget]

/-- Witness for C4: deleting and updating a title absent from a concrete
catalog leaves the file unchanged. -/
theorem C4_lookup_error_noop_witness :
    hasKey (jsonListMovies (JFile.content (JValue.obj [("M", JValue.null)]))) "X" = false ∧
    deleteMovie (JFile.content (JValue.obj [("M", JValue.null)])) "X" =
      JFile.content (JValue.obj [("M", JValue.null)]) ∧
    updateMovieNote (JFile.content (JValue.obj [("M", JValue.null)])) "X" (some "n") =
      some (JFile.content (JValue.obj [("M", JValue.null)])) ∧
    updateMovieRating (JFile.content (JValue.obj [("M", JValue.null)])) "X" 7 =
      some (JFile.content (JValue.obj [("M", JValue.null)])) :=
  ⟨by decide, C4_lookup_error_noop (JFile.content (JValue.obj [("M", JValue.null)])) "X"
    (some "n") 7 (by decide)⟩

/-- C5: when the title is present (with a dict record), the note-variant
update rewrites only the Note field of that record and the rating-variant
update rewrites only the rating field; every other field of the record and
every other record of the catalog are untouched, and the result is saved. -/
theorem C5_update_frame (f : JFile) (title : String) (note : Option String) (rating : ℚ)
    (fields : List (String × JValue))
    (h : getKey (jsonListMovies f) title = some (JValue.obj fields)) :
    (∃ fields2,
      updateMovieNote f title note =
        some (jsonSaveMovies (insertKey (jsonListMovies f) title (JValue.obj fields2))) ∧
      (∀ k, k ≠ "Note" → getKey fields2 k = getKey fields k) ∧
      (∀ t, t ≠ title →
        getKey (insertKey (jsonListMovies f) title (JValue.obj fields2)) t =
          getKey (jsonListMovies f) t)) ∧
    (∃ fields3,
      updateMovieRating f title rating =
        some (jsonSaveMovies (insertKey (jsonListMovies f) title (JValue.obj fields3))) ∧
      getKey fields3 "rating" = some (JValue.num rating) ∧
      (∀ k, k ≠ "rating" → getKey fields3 k = getKey fields k) ∧
      (∀ t, t ≠ title →
        getKey (insertKey (jsonListMovies f) title (JValue.obj fields3)) t =
          getKey (jsonListMovies f) t)) := by
  constructor
  · refine ⟨(if noteTruthy note then insertKey fields "Note" (JValue.str (pyStrip (note.getD "")))
      else if hasKey fields "Note" then deleteKey fields "Note" else fields), ?_, ?_, ?_⟩
    · simp [updateMovieNote, h]
    · intro k hk
      by_cases hn : noteTruthy note
      · simp only [if_pos hn]
        exact getKey_insertKey_ne fields "Note" k _ hk
      · simp only [if_neg hn]
        by_cases hh : hasKey fields "Note"
        · simp only [if_pos hh]
          exact getKey_deleteKey_ne fields "Note" k hk
        · simp only [if_neg hh]
    · intro t ht
      exact getKey_insertKey_ne _ title t _ ht
  · refine ⟨insertKey fields "rating" (JValue.num rating), ?_, ?_, ?_, ?_⟩
    · simp [updateMovieRating, h]
    · exact getKey_insertKey_self fields "rating" (JValue.num rating)
    · intro k hk
      exact getKey_insertKey_ne fields "rating" k _ hk
    · intro t ht
      exact getKey_insertKey_ne _ title t _ ht

/-- Witness for C5: the frame property instantiated on a concrete catalog
and record. -/
theorem C5_update_frame_witness :
    getKey (jsonListMovies (JFile.content
        (JValue.obj [("M", JValue.obj [("year", JValue.num 1)])]))) "M" =
      some (JValue.obj [("year", JValue.num 1)]) ∧
    (∃ fields2,
      updateMovieNote (JFile.content (JValue.obj [("M", JValue.obj [("year", JValue.num 1)])]))
          "M" (some " hi ") =
        some (jsonSaveMovies (insertKey
          (jsonListMovies (JFile.content (JValue.obj [("M", JValue.obj [("year", JValue.num 1)])])))
          "M" (JValue.obj fields2))) ∧
      (∀ k, k ≠ "Note" → getKey fields2 k = getKey [("year", JValue.num 1)] k) ∧
      (∀ t, t ≠ "M" →
        getKey (insertKey
          (jsonListMovies (JFile.content (JValue.obj [("M", JValue.obj [("year", JValue.num 1)])])))
          "M" (JValue.obj fields2)) t =
          getKey (jsonListMovies (JFile.content
            (JValue.obj [("M", JValue.obj [("year", JValue.num 1)])]))) t)) :=
  ⟨rfl, (C5_update_frame (JFile.content (JValue.obj [("M", JValue.obj [("year", JValue.num 1)])]))
    "M" (some " hi ") 7 [("year", JValue.num 1)] rfl).1⟩

/-- C10: at the storage layer add_movie performs no uniqueness check: with
the exact title already present, the record is silently overwritten - the
catalog keeps its size, the old field values are replaced by the new
record, every other title is untouched, and the result is what gets
saved. -/
theorem C10_storage_overwrite (f : JFile) (title : String) (year : Int) (rating : ℚ)
    (poster : Option String) (h : hasKey (jsonListMovies f) title = true) :
    (jsonListMovies (sjAddMovie f title year rating poster)).length =
      (jsonListMovies f).length ∧
    getKey (jsonListMovies (sjAddMovie f title year rating poster)) title =
      some (JValue.obj [("year", JValue.num year), ("rating", JValue.num rating),
        ("poster", match poster with | none => JValue.null | some p => JValue.str p)]) ∧
    (∀ t, t ≠ title → getKey (jsonListMovies (sjAddMovie f title year rating poster)) t =
      getKey (jsonListMovies f) t) := by
  have hl : jsonListMovies (sjAddMovie f title year rating poster) =
      insertKey (jsonListMovies f) title (JValue.obj [("year", JValue.num year),
        ("rating", JValue.num rating),
        ("poster", match poster with | none => JValue.null | some p => JValue.str p)]) := rfl
  rw [hl]
  exact ⟨length_insertKey_of_hasKey _ _ _ h, getKey_insertKey_self _ _ _,
    fun t ht => getKey_insertKey_ne _ _ _ _ ht⟩

/-- Witness for C10: overwriting a present title on a concrete catalog
keeps the size and replaces the record. -/
theorem C10_storage_overwrite_witness :
    hasKey (jsonListMovies (JFile.content (JValue.obj [("M", JValue.null)]))) "M" = true ∧
    (jsonListMovies (sjAddMovie (JFile.content (JValue.obj [("M", JValue.null)]))
        "M" 1 5 none)).length =
      (jsonListMovies (JFile.content (JValue.obj [("M", JValue.null)]))).length ∧
    getKey (jsonListMovies (sjAddMovie (JFile.content (JValue.obj [("M", JValue.null)]))
        "M" 1 5 none)) "M" =
      some (JValue.obj [("year", JValue.num 1), ("rating", JValue.num 5),
        ("poster", JValue.null)]) := by
  have h := C10_storage_overwrite (JFile.content (JValue.obj [("M", JValue.null)]))
    "M" 1 5 none (by decide)
  exact ⟨by decide, h.1, h.2.1⟩

/-- C3 (counterexample): the claim fails as stated for the basic CSV
variant: StorageCsv.load_data does not guard its numeric conversions, so a
row whose year cell does not parse raises a ValueError that propagates to
the caller instead of the record being skipped. -/
theorem C3_counterexample :
    loadData (some [["t", "x", "5"]]) =
      Except.error "ValueError: invalid literal for int: x" := rfl

/-- C3 (amended): the JSON loader never raises and degrades to an empty
catalog on a missing file, invalid JSON, or a non-dict top level. The
structured CSV loader yields an empty catalog for a missing file, and
skips a row whose header lacks a required column and a row whose year or
rating cell holds an unparseable string; but it is not total: on a
complete header, csv.DictReader fills the cells a short data row lacks
with None, and int(None) in the Year conversion then raises a TypeError
(not caught by the except ValueError) that propagates to the caller. The
basic CSV loader yields an empty catalog for a missing file and skips
rows of the wrong arity, but a row with an unparseable year raises a
ValueError to the caller. -/
theorem C3_load_amended (rows2 : List (List String)) (m : List (String × BMovie))
    (hok : loadData (some rows2) = Except.ok m) :
    (jsonListMovies JFile.missing = [] ∧ jsonListMovies JFile.invalidSyntax = [] ∧
      (∀ j : JValue, (∀ kvs, j ≠ JValue.obj kvs) → jsonListMovies (JFile.content j) = [])) ∧
    (csvListMoviesD none = Except.ok [] ∧
      (∀ rows row, csvListMoviesD (some (rows ++ [row])) =
        csvListMoviesD (some rows) >>= (fun mv => csvReadRowD mv row)) ∧
      (∀ mv row, hasKey row "Year" = false → csvReadRowD mv row = Except.ok mv) ∧
      (∀ mv row ys, getKey row "Year" = some (some ys) → pyInt? ys = none →
        csvReadRowD mv row = Except.ok mv) ∧
      (∀ mv row ys rs, getKey row "Year" = some (some ys) →
        getKey row "Rating" = some (some rs) → rs ≠ "" → pyFloat? rs = none →
        csvReadRowD mv row = Except.ok mv) ∧
      (∀ mv row, (["Title", "Year", "Rating", "Poster", "imdbID", "Flag"].all
          (fun k => hasKey row k)) = true → getKey row "Year" = some none →
        csvReadRowD mv row = Except.error PyErr.typeError)) ∧
    (loadData none = Except.ok [] ∧
      (∀ row, row.length ≠ 3 → loadData (some (rows2 ++ [row])) = Except.ok m) ∧
      (∀ t ys rs, pyInt? ys = none →
        loadData (some (rows2 ++ [[t, ys, rs]])) =
          Except.error ("ValueError: invalid literal for int: " ++ ys))) := by
  refine ⟨⟨rfl, rfl, ?_⟩, ⟨rfl, ?_, ?_, ?_, ?_, ?_⟩, ⟨rfl, ?_, ?_⟩⟩
  · intro j hj
    match j with
    | JValue.null => rfl
    | JValue.bool b => rfl
    | JValue.num q => rfl
    | JValue.str t => rfl
    | JValue.arr xs => rfl
    | JValue.obj kvs => exact absurd rfl (hj kvs)
  · intro rows row
    show (rows ++ [row]).foldlM csvReadRowD [] = _
    rw [List.foldlM_append]
    show csvListMoviesD (some rows) >>= _ = _
    cases csvListMoviesD (some rows) with
    | error e => rfl
    | ok mv =>
      show [row].foldlM csvReadRowD mv = csvReadRowD mv row
      cases h1 : csvReadRowD mv row with
      | error e => simp [List.foldlM, h1]
      | ok mv2 => simp [List.foldlM, h1]
  · intro mv row h
    have hall : (["Title", "Year", "Rating", "Poster", "imdbID", "Flag"].all
        (fun k => hasKey row k)) ≠ true := by
      intro hc
      have hy := List.all_eq_true.mp hc "Year" (by decide)
      rw [h] at hy
      exact Bool.false_ne_true hy
    simp [csvReadRowD, hall]
  · intro mv row ys hY hpi
    by_cases hg : (["Title", "Year", "Rating", "Poster", "imdbID", "Flag"].all
        (fun k => hasKey row k)) = true
    · simp only [csvReadRowD, hg, if_true]
      rw [hY]
      simp only [Option.getD_some]
      rw [hpi]
    · simp [csvReadRowD, hg]
  · intro mv row ys rs hY hR hrs hpf
    by_cases hg : (["Title", "Year", "Rating", "Poster", "imdbID", "Flag"].all
        (fun k => hasKey row k)) = true
    · simp only [csvReadRowD, hg, if_true]
      rw [hY]
      simp only [Option.getD_some]
      cases hpi : pyInt? ys with
      | none => rfl
      | some y =>
        rw [hR]
        simp only [Option.getD_some, if_neg hrs, hpf, Option.map_none']
    · simp [csvReadRowD, hg]
  · intro mv row hg hY
    simp only [csvReadRowD, hg, if_true]
    rw [hY]
    rfl
  · intro row hlen
    have hrow : loadDataRow m row = Except.ok m := by
      match row, hlen with
      | [], _ => rfl
      | [a], _ => rfl
      | [a, b], _ => rfl
      | [a, b, c], h => simp at h
      | a :: b :: c :: d :: tl, _ => rfl
    show (rows2 ++ [row]).foldlM loadDataRow [] = Except.ok m
    rw [List.foldlM_append]
    show (loadData (some rows2)) >>= _ = Except.ok m
    rw [hok]
    show [row].foldlM loadDataRow m = Except.ok m
    simp [List.foldlM, hrow]
  · intro t ys rs h
    have hrow : loadDataRow m [t, ys, rs] = Except.error
        ("ValueError: invalid literal for int: " ++ ys) := by
      simp only [loadDataRow]
      rw [h]
    show (rows2 ++ [[t, ys, rs]]).foldlM loadDataRow [] = _
    rw [List.foldlM_append]
    show (loadData (some rows2)) >>= _ = _
    rw [hok]
    show [[t, ys, rs]].foldlM loadDataRow m = _
    simp [List.foldlM, hrow]

/-- Witness for C3: the amended behaviour evaluated on concrete inputs: a
good row parses, a wrong-arity row is skipped, an unparseable year string
raises a ValueError in the basic loader, and in the structured loader a
row whose Year cell was None-filled raises a TypeError. -/
theorem C3_load_amended_witness :
    loadData (some [["t", "1", "5"]]) = Except.ok [("t", ⟨1, 5⟩)] ∧
    loadData (some ([["t", "1", "5"]] ++ [["u", "v"]])) = Except.ok [("t", ⟨1, 5⟩)] ∧
    loadData (some ([["t", "1", "5"]] ++ [["u", "x", "7"]])) =
      Except.error ("ValueError: invalid literal for int: " ++ "x") ∧
    csvReadRowD [] [("Title", some "t"), ("Year", none), ("Rating", some "5"),
      ("Poster", some "p"), ("imdbID", some "i"), ("Flag", some "")] =
      Except.error PyErr.typeError := by
  have h := C3_load_amended [["t", "1", "5"]] [("t", ⟨1, 5⟩)] rfl
  exact ⟨rfl, h.2.2.2.1 ["u", "v"] (by decide), h.2.2.2.2 "u" "x" "7" rfl,
    h.2.1.2.2.2.2.2 [] _ (by decide) rfl⟩

/-- C2: an add whose fetched title matches an existing title after
stripping and lowercasing fails and persists nothing; a successful add
appends exactly one new entry to the store; hence add followed by add of
the same title in any case leaves exactly one entry for that normalized
title and reports the failure on the second call. -/
theorem C2_add_uniqueness (mapping : List (String × String)) (f f2 : JFile)
    (data : FetchedData)
    (hres : commandAdd mapping f (some data) = (AddResult.added, f2)) :
    (jsonListMovies f2).length = (jsonListMovies f).length + 1 ∧
    hasKey (jsonListMovies f2) data.title = true ∧
    (jsonListMovies f2).countP (fun p => normTitle p.1 = normTitle data.title) = 1 ∧
    (∀ d2 : FetchedData, normTitle d2.title = normTitle data.title →
      commandAdd mapping f2 (some d2) = (AddResult.alreadyExists, f2)) ∧
    (∀ (g g2 : JFile) (d0 : FetchedData) (r : AddResult),
      commandAdd mapping g (some d0) = (r, g2) → r ≠ AddResult.added → g2 = g) := by
  have hfail : ∀ (g g2 : JFile) (d0 : FetchedData) (r : AddResult),
      commandAdd mapping g (some d0) = (r, g2) → r ≠ AddResult.added → g2 = g := by
    intro g g2 d0 r h hr
    simp only [commandAdd] at h
    split at h
    · injection h with ha hb
      exact hb.symm
    · split at h <;> split at h <;> injection h with ha hb
      · exact absurd ha.symm hr
      · exact hb.symm
      · exact absurd ha.symm hr
      · exact hb.symm
  have hcore : ∃ rec, ((jsonListMovies f).any
      (fun p => normTitle p.1 = normTitle data.title)) = false ∧
      jsonListMovies f2 = jsonListMovies f ++ [(data.title, rec)] := by
    simp only [commandAdd] at hres
    split at hres
    case isTrue h1 => simp at hres
    case isFalse h1 =>
      have hany : ((jsonListMovies f).any
          (fun p => normTitle p.1 = normTitle data.title)) = false := by
        simpa using h1
      have hhas : hasKey (jsonListMovies f) data.title = false := by
        by_contra hc
        have hc2 : hasKey (jsonListMovies f) data.title = true := by
          revert hc
          match hasKey (jsonListMovies f) data.title with
          | true => intro _; rfl
          | false => intro hc; exact absurd rfl hc
        obtain ⟨p, hp, hpt⟩ := List.any_eq_true.mp hc2
        have hcontra : ((jsonListMovies f).any
            (fun p => normTitle p.1 = normTitle data.title)) = true := by
          refine List.any_eq_true.mpr ⟨p, hp, ?_⟩
          have hpt2 : p.1 = data.title := by simpa using hpt
          simp [hpt2]
        rw [hany] at hcontra
        exact Bool.false_ne_true hcontra
      split at hres
      case isTrue himdb =>
        split at hres
        case isTrue hchain =>
          injection hres with ha hf2
          exact ⟨_, hany, by
            rw [← hf2]
            exact insertKey_of_not_hasKey _ _ _ hhas⟩
        case isFalse hchain => simp at hres
      case isFalse himdb =>
        split at hres
        case isTrue hchain =>
          injection hres with ha hf2
          exact ⟨_, hany, by
            rw [← hf2]
            exact insertKey_of_not_hasKey _ _ _ hhas⟩
        case isFalse hchain => simp at hres
  obtain ⟨rec, hany, hlist⟩ := hcore
  refine ⟨?_, ?_, ?_, ?_, hfail⟩
  · rw [hlist]
    simp
  · rw [hlist, hasKey_append]
    have hone : hasKey [(data.title, rec)] data.title = true := by
      simp [hasKey]
    rw [hone, Bool.or_true]
  · rw [hlist, List.countP_append]
    have hz : (jsonListMovies f).countP
        (fun p => normTitle p.1 = normTitle data.title) = 0 := by
      refine List.countP_eq_zero.mpr ?_
      intro p hp hcp
      have hcontra : ((jsonListMovies f).any
          (fun p => normTitle p.1 = normTitle data.title)) = true :=
        List.any_eq_true.mpr ⟨p, hp, hcp⟩
      rw [hany] at hcontra
      exact Bool.false_ne_true hcontra
    rw [hz]
    simp [List.countP_cons]
  · intro d2 hd2
    have hany2 : ((jsonListMovies f2).any
        (fun p => normTitle p.1 = normTitle d2.title)) = true := by
      refine List.any_eq_true.mpr ⟨(data.title, rec), ?_, ?_⟩
      · rw [hlist]
        exact List.mem_append_right _ (List.mem_singleton.mpr rfl)
      · simp [hd2]
    simp only [commandAdd]
    rw [if_pos hany2]

/-- Witness for C2: a concrete successful add into an empty store followed
by a second add of the same title reports failure and leaves one entry. -/
theorem C2_add_uniqueness_witness :
    commandAdd [("USA", "US")] JFile.missing
      (some ⟨"T", some 2000, some 8, some "p", some "i", some "USA"⟩) =
      (AddResult.added, JFile.content (JValue.obj [("T", JValue.obj
        [("Year", JValue.num 2000), ("Rating", JValue.num 8), ("Poster", JValue.str "p"),
         ("imdbID", JValue.str "https://www.imdb.com/title/i/"),
         ("Flag", JValue.arr [JValue.str "https://flagsapi.com/US/flat/64.png"])])])) ∧
    (jsonListMovies (JFile.content (JValue.obj [("T", JValue.obj
        [("Year", JValue.num 2000), ("Rating", JValue.num 8), ("Poster", JValue.str "p"),
         ("imdbID", JValue.str "https://www.imdb.com/title/i/"),
         ("Flag", JValue.arr [JValue.str "https://flagsapi.com/US/flat/64.png"])])]))).length =
      (jsonListMovies JFile.missing).length + 1 ∧
    commandAdd [("USA", "US")] (JFile.content (JValue.obj [("T", JValue.obj
        [("Year", JValue.num 2000), ("Rating", JValue.num 8), ("Poster", JValue.str "p"),
         ("imdbID", JValue.str "https://www.imdb.com/title/i/"),
         ("Flag", JValue.arr [JValue.str "https://flagsapi.com/US/flat/64.png"])])]))
      (some ⟨"t", some 1999, some 7, some "q", some "j", some "USA"⟩) =
      (AddResult.alreadyExists, JFile.content (JValue.obj [("T", JValue.obj
        [("Year", JValue.num 2000), ("Rating", JValue.num 8), ("Poster", JValue.str "p"),
         ("imdbID", JValue.str "https://www.imdb.com/title/i/"),
         ("Flag", JValue.arr [JValue.str "https://flagsapi.com/US/flat/64.png"])])])) := by
  have h := C2_add_uniqueness [("USA", "US")] JFile.missing
    (JFile.content (JValue.obj [("T", JValue.obj
      [("Year", JValue.num 2000), ("Rating", JValue.num 8), ("Poster", JValue.str "p"),
       ("imdbID", JValue.str "https://www.imdb.com/title/i/"),
       ("Flag", JValue.arr [JValue.str "https://flagsapi.com/US/flat/64.png"])])]))
    ⟨"T", some 2000, some 8, some "p", some "i", some "USA"⟩ rfl
  exact ⟨rfl, h.1, h.2.2.2.1 ⟨"t", some 1999, some 7, some "q", some "j", some "USA"⟩ rfl⟩

theorem passesBasic_iff (minR : Option ℚ) (startY endY : Option Int) (d : BMovie) :
    (passesBasic minR startY endY d = true) ↔ specPassesBasic minR startY endY d := by
  cases minR <;> cases startY <;> cases endY <;>
    simp [passesBasic, specPassesBasic]

theorem bound_iff_rat (minR : Option ℚ) (r : ℚ) (hminz : minR ≠ some 0) :
    ((if boundFalsyR minR then true else decide ((minR.getD 0) ≤ r)) = true ↔
      ∀ m, minR = some m → m ≤ r) := by
  cases minR with
  | none => simp [boundFalsyR]
  | some m =>
    have hm : (m = 0) = False := by
      simp only [eq_iff_iff, iff_false]
      intro he
      exact hminz (by rw [he])
    simp [boundFalsyR, hm]

theorem bound_iff_start (startY : Option Int) (y : Int) (hsz : startY ≠ some 0) :
    ((if boundFalsyI startY then true else decide ((startY.getD 0) ≤ y)) = true ↔
      ∀ v, startY = some v → v ≤ y) := by
  cases startY with
  | none => simp [boundFalsyI]
  | some v =>
    have hv : (v = 0) = False := by
      simp only [eq_iff_iff, iff_false]
      intro he
      exact hsz (by rw [he])
    simp [boundFalsyI, hv]

theorem bound_iff_end (endY : Option Int) (y : Int) (hez : endY ≠ some 0) :
    ((if boundFalsyI endY then true else decide (y ≤ (endY.getD 0))) = true ↔
      ∀ v, endY = some v → y ≤ v) := by
  cases endY with
  | none => simp [boundFalsyI]
  | some v =>
    have hv : (v = 0) = False := by
      simp only [eq_iff_iff, iff_false]
      intro he
      exact hez (by rw [he])
    simp [boundFalsyI, hv]

theorem passesApp_some (minR : Option ℚ) (startY endY : Option Int) (d : AMovie)
    (hminz : minR ≠ some 0) (hsz : startY ≠ some 0) (hez : endY ≠ some 0)
    (hd : d.rating ≠ none) :
    ∃ b, passesApp minR startY endY d = some b ∧
      (b = true ↔ specPassesApp minR startY endY d) := by
  obtain ⟨r, hr⟩ := Option.ne_none_iff_exists'.mp hd
  refine ⟨(if boundFalsyR minR then true else decide ((minR.getD 0) ≤ r)) &&
    ((if boundFalsyI startY then true else decide ((startY.getD 0) ≤ d.year)) &&
     (if boundFalsyI endY then true else decide (d.year ≤ (endY.getD 0)))), ?_, ?_⟩
  · by_cases hb : boundFalsyR minR = true
    · simp [passesApp, hb]
    · simp [passesApp, hb, hr]
  · rw [Bool.and_eq_true, Bool.and_eq_true]
    rw [bound_iff_rat minR r hminz, bound_iff_start startY d.year hsz,
      bound_iff_end endY d.year hez]
    simp only [specPassesApp, hr]
    constructor
    · rintro ⟨h1, h2, h3⟩
      exact ⟨fun m hm => ⟨r, rfl, h1 m hm⟩, h2, h3⟩
    · rintro ⟨h1, h2, h3⟩
      refine ⟨?_, h2, h3⟩
      intro m hm
      obtain ⟨r2, hr2, hle⟩ := h1 m hm
      rcases Option.some.inj hr2 with rfl
      exact hle

theorem filterMoviesApp_some (minR : Option ℚ) (startY endY : Option Int)
    (l : List (String × AMovie))
    (h : ∀ p ∈ l, ∃ b, passesApp minR startY endY p.2 = some b) :
    ∀ acc, l.foldlM (fun acc p => (passesApp minR startY endY p.2).map (fun b =>
        if b then acc ++ [(p.1, p.2.year, p.2.rating)] else acc)) acc =
      some (acc ++ l.filterMap (fun p =>
        if passesApp minR startY endY p.2 = some true then some (p.1, p.2.year, p.2.rating)
        else none)) := by
  induction l with
  | nil => intro acc; simp
  | cons p ps ih =>
    intro acc
    obtain ⟨b, hb⟩ := h p (List.mem_cons_self p ps)
    rw [List.foldlM_cons, hb]
    have ihp := ih (fun q hq => h q (List.mem_cons_of_mem p hq))
    cases b
    · show (some acc).bind _ = _
      rw [Option.some_bind]
      rw [ihp acc]
      congr 1
      rw [List.filterMap_cons]
      have hcond : (passesApp minR startY endY p.2 = some true) = False := by
        simp only [eq_iff_iff, iff_false, hb]
        simp
      simp [hcond]
    · show (some (acc ++ [(p.1, p.2.year, p.2.rating)])).bind _ = _
      rw [Option.some_bind]
      rw [ihp (acc ++ [(p.1, p.2.year, p.2.rating)])]
      congr 1
      rw [List.filterMap_cons]
      simp only [hb, if_pos rfl]
      simp

/-- C6 (counterexample): the claim fails as stated for the MovieApp
filter: the code tests bounds with Python truthiness (`not end_year`), so
a provided end-year bound of 0 imposes no constraint, and a record that
violates the provided bound still appears in the output. -/
theorem C6_counterexample :
    filterMoviesApp none none (some 0) [("M", ⟨2000, some 5⟩)] =
      some [("M", 2000, some 5)] ∧
    ¬ specPassesApp none none (some 0) ⟨2000, some 5⟩ := by
  constructor
  · decide
  · intro h
    have := h.2.2 0 rfl
    norm_num at this

/-- C6 (amended): for the movies.py filter the record-passes-iff-bounds
property holds for every combination of bounds; for the MovieApp variant
it holds provided every supplied bound is nonzero and every record has a
rating; and the minimum-rating-7 output is a subset of the unconstrained
output with every member rated at least 7. -/
theorem C6_filter_amended (minR : Option ℚ) (startY endY : Option Int)
    (amovies : List (String × AMovie))
    (hminz : minR ≠ some 0) (hsz : startY ≠ some 0) (hez : endY ≠ some 0)
    (hrat : ∀ p ∈ amovies, p.2.rating ≠ none) :
    (∀ (movies : List (String × BMovie)) (mr : Option ℚ) (sy ey : Option Int)
      (t : String) (y : Int) (r : ℚ),
      (t, y, r) ∈ filterMoviesBasic mr sy ey movies ↔
        ((t, ⟨y, r⟩) ∈ movies ∧ specPassesBasic mr sy ey ⟨y, r⟩)) ∧
    (∃ out, filterMoviesApp minR startY endY amovies = some out ∧
      ∀ (t : String) (y : Int) (ro : Option ℚ), (t, y, ro) ∈ out ↔
        ((t, ⟨y, ro⟩) ∈ amovies ∧ specPassesApp minR startY endY ⟨y, ro⟩)) ∧
    (∀ (movies : List (String × BMovie)) (x : String × Int × ℚ),
      x ∈ filterMoviesBasic (some 7) none none movies →
        x ∈ filterMoviesBasic none none none movies ∧ 7 ≤ x.2.2) := by
  refine ⟨?_, ?_, ?_⟩
  · intro movies mr sy ey t y r
    simp only [filterMoviesBasic, List.mem_filterMap]
    constructor
    · rintro ⟨⟨p1, py, pr⟩, hp, hpe⟩
      by_cases hpass : passesBasic mr sy ey ⟨py, pr⟩ = true
      · rw [if_pos hpass] at hpe
        rcases Option.some.inj hpe with he
        have h1 : p1 = t := congrArg Prod.fst he
        have h2 : py = y := congrArg (fun z => z.2.1) he
        have h3 : pr = r := congrArg (fun z => z.2.2) he
        rw [← h1, ← h2, ← h3]
        exact ⟨hp, (passesBasic_iff mr sy ey ⟨py, pr⟩).mp hpass⟩
      · rw [if_neg hpass] at hpe
        exact absurd hpe (by simp)
    · rintro ⟨hmem, hspec⟩
      exact ⟨(t, ⟨y, r⟩), hmem, by
        rw [if_pos ((passesBasic_iff mr sy ey ⟨y, r⟩).mpr hspec)]⟩
  · have hsome : ∀ p ∈ amovies, ∃ b, passesApp minR startY endY p.2 = some b := by
      intro p hp
      obtain ⟨b, hb, -⟩ := passesApp_some minR startY endY p.2 hminz hsz hez (hrat p hp)
      exact ⟨b, hb⟩
    refine ⟨_, filterMoviesApp_some minR startY endY amovies hsome [], ?_⟩
    intro t y ro
    rw [List.nil_append]
    simp only [List.mem_filterMap]
    constructor
    · rintro ⟨⟨p1, py, pr⟩, hp, hpe⟩
      by_cases hpass : passesApp minR startY endY ⟨py, pr⟩ = some true
      · rw [if_pos hpass] at hpe
        rcases Option.some.inj hpe with he
        have h1 : p1 = t := congrArg Prod.fst he
        have h2 : py = y := congrArg (fun z => z.2.1) he
        have h3 : pr = ro := congrArg (fun z => z.2.2) he
        rw [← h1, ← h2, ← h3]
        obtain ⟨b, hb, hiff⟩ := passesApp_some minR startY endY ⟨py, pr⟩ hminz hsz hez
          (hrat _ hp)
        rw [hb] at hpass
        rcases Option.some.inj hpass with hbt
        exact ⟨hp, hiff.mp hbt⟩
      · rw [if_neg hpass] at hpe
        exact absurd hpe (by simp)
    · rintro ⟨hmem, hspec⟩
      refine ⟨(t, ⟨y, ro⟩), hmem, ?_⟩
      obtain ⟨b, hb, hiff⟩ := passesApp_some minR startY endY ⟨y, ro⟩ hminz hsz hez
        (hrat _ hmem)
      rw [hb, hiff.mpr hspec]
      simp
  · intro movies x hx
    simp only [filterMoviesBasic, List.mem_filterMap] at hx ⊢
    obtain ⟨p, hp, hpe⟩ := hx
    by_cases hpass : passesBasic (some 7) none none p.2 = true
    · rw [if_pos hpass] at hpe
      have h7 : (7 : ℚ) ≤ p.2.rating :=
        ((passesBasic_iff (some 7) none none p.2).mp hpass).1 7 rfl
      rcases Option.some.inj hpe with he
      constructor
      · refine ⟨p, hp, ?_⟩
        rw [if_pos (by simp [passesBasic])]
        rw [he]
      · have hxr : x.2.2 = p.2.rating := by
          rw [← he]
        rw [hxr]
        exact h7
    · rw [if_neg hpass] at hpe
      exact absurd hpe (by simp)

/-- Witness for C6: the amended property instantiated on a concrete
catalog and bound combination. -/
theorem C6_filter_amended_witness :
    ((none : Option ℚ) ≠ some 0) ∧
    (∃ out, filterMoviesApp none none none [("A", ⟨1, some 2⟩)] = some out ∧
      ∀ (t : String) (y : Int) (ro : Option ℚ), (t, y, ro) ∈ out ↔
        ((t, ⟨y, ro⟩) ∈ ([("A", ⟨1, some 2⟩)] : List (String × AMovie)) ∧
          specPassesApp none none none ⟨y, ro⟩)) :=
  ⟨by decide, (C6_filter_amended none none none [("A", ⟨1, some 2⟩)] (by decide) (by decide)
    (by decide) (by decide)).2.1⟩

/-- C7: statistics computes the mean and the median of all ratings, and
the best and worst lists contain exactly the titles whose rating equals
the maximum and the minimum (ties are not broken); on the example catalog
the average and median are 8.55, Inception is best and Up is worst. -/
theorem C7_statistics :
    movieStatistics [("Inception", ⟨2010, 8.8⟩), ("Up", ⟨2009, 8.3⟩)] =
      some (8.55, 8.55, ["Inception"], ["Up"]) ∧
    (∀ movies : List (String × BMovie), ∀ avg med best worst,
      movieStatistics movies = some (avg, med, best, worst) →
      (∀ t, t ∈ best ↔ ∃ d, (t, d) ∈ movies ∧ d.rating = pyMax (ratingsOf movies)) ∧
      (∀ t, t ∈ worst ↔ ∃ d, (t, d) ∈ movies ∧ d.rating = pyMin (ratingsOf movies)) ∧
      avg * ((ratingsOf movies).length : ℚ) = (ratingsOf movies).sum ∧
      med = pyMedian (ratingsOf movies)) := by
  constructor
  · have hrat : ratingsOf [("Inception", ⟨2010, 8.8⟩), ("Up", ⟨2009, 8.3⟩)] =
        [(8.8 : ℚ), 8.3] := rfl
    have havg : ((ratingsOf [("Inception", ⟨2010, 8.8⟩), ("Up", ⟨2009, 8.3⟩)]).sum /
        ((ratingsOf [("Inception", ⟨2010, 8.8⟩), ("Up", ⟨2009, 8.3⟩)]).length : ℚ)) =
        (8.55 : ℚ) := by
      rw [hrat]
      norm_num
    have hsort : pySorted [(8.8 : ℚ), 8.3] = [8.3, 8.8] := by
      show insertLe (fun a b : ℚ => a ≤ b) 8.8 (insertLe (fun a b : ℚ => a ≤ b) 8.3 []) =
        [8.3, 8.8]
      rw [show insertLe (fun a b : ℚ => a ≤ b) 8.3 [] = [8.3] from rfl]
      rw [insertLe, if_neg (by norm_num)]
      rfl
    have hmed : pyMedian (ratingsOf [("Inception", ⟨2010, 8.8⟩), ("Up", ⟨2009, 8.3⟩)]) =
        (8.55 : ℚ) := by
      rw [hrat, pyMedian, if_neg (by norm_num), hsort]
      show ((8.3 : ℚ) + 8.8) / 2 = 8.55
      norm_num
    have hmax : pyMax (ratingsOf [("Inception", ⟨2010, 8.8⟩), ("Up", ⟨2009, 8.3⟩)]) =
        (8.8 : ℚ) := by
      rw [hrat]
      show max (8.8 : ℚ) 8.3 = 8.8
      rw [max_eq_left (by norm_num)]
    have hmin : pyMin (ratingsOf [("Inception", ⟨2010, 8.8⟩), ("Up", ⟨2009, 8.3⟩)]) =
        (8.3 : ℚ) := by
      rw [hrat]
      show min (8.8 : ℚ) 8.3 = 8.3
      rw [min_eq_right (by norm_num)]
    rw [movieStatistics, if_neg (by simp)]
    rw [havg, hmed, hmax, hmin]
    rw [List.filterMap_cons, List.filterMap_cons, List.filterMap_nil]
    rw [List.filterMap_cons, List.filterMap_cons, List.filterMap_nil]
    norm_num
  · intro movies avg med best worst h
    have hne : ¬ movies = [] := by
      intro he
      rw [movieStatistics, if_pos he] at h
      exact Option.noConfusion h
    rw [movieStatistics, if_neg hne] at h
    rcases Option.some.inj h with he
    have havg : avg = (ratingsOf movies).sum / ((ratingsOf movies).length : ℚ) :=
      (congrArg (fun z => z.1) he).symm
    have hmed : med = pyMedian (ratingsOf movies) :=
      (congrArg (fun z => z.2.1) he).symm
    have hbest : best = movies.filterMap (fun p =>
        if p.2.rating = pyMax (ratingsOf movies) then some p.1 else none) :=
      (congrArg (fun z => z.2.2.1) he).symm
    have hworst : worst = movies.filterMap (fun p =>
        if p.2.rating = pyMin (ratingsOf movies) then some p.1 else none) :=
      (congrArg (fun z => z.2.2.2) he).symm
    refine ⟨?_, ?_, ?_, hmed⟩
    · intro t
      rw [hbest]
      simp only [List.mem_filterMap]
      constructor
      · rintro ⟨⟨p1, pd⟩, hp, hpe⟩
        by_cases hc : pd.rating = pyMax (ratingsOf movies)
        · rw [if_pos hc] at hpe
          rcases Option.some.inj hpe with h1
          rw [← h1]
          exact ⟨pd, hp, hc⟩
        · rw [if_neg hc] at hpe
          exact absurd hpe (by simp)
      · rintro ⟨d, hmem, hd⟩
        exact ⟨(t, d), hmem, by rw [if_pos hd]⟩
    · intro t
      rw [hworst]
      simp only [List.mem_filterMap]
      constructor
      · rintro ⟨⟨p1, pd⟩, hp, hpe⟩
        by_cases hc : pd.rating = pyMin (ratingsOf movies)
        · rw [if_pos hc] at hpe
          rcases Option.some.inj hpe with h1
          rw [← h1]
          exact ⟨pd, hp, hc⟩
        · rw [if_neg hc] at hpe
          exact absurd hpe (by simp)
      · rintro ⟨d, hmem, hd⟩
        exact ⟨(t, d), hmem, by rw [if_pos hd]⟩
    · rw [havg]
      have hlen : ((ratingsOf movies).length : ℚ) ≠ 0 := by
        intro hz
        have h1 : (ratingsOf movies).length = movies.length := List.length_map _ _
        rw [h1] at hz
        exact hne (List.length_eq_zero.mp (Nat.cast_eq_zero.mp hz))
      exact div_mul_cancel₀ _ hlen

/-- C8 (counterexample): the claim fails as stated for the movies.py
variant: search_movie has no minimum-length refusal, so a one-character
query is searched instead of refused (here with a similarity function
standing for the external matcher). -/
theorem C8_counterexample :
    searchMovieBasic (fun _ _ => 100) "a" [("Avatar", (⟨2009, 7⟩ : BMovie))] =
      SearchResult.found ["Avatar"] ∧
    searchMovieBasic (fun _ _ => 100) "a" [("Avatar", (⟨2009, 7⟩ : BMovie))] ≠
      SearchResult.usageError := ⟨by decide, by decide⟩

/-- C8 (amended): the MovieApp search refuses queries shorter than two
characters with a usage message and movies.py search_movie never does; in
both variants the reported candidates all score strictly above 60, are
ranked by similarity in descending order, and number at most five. -/
theorem C8_search_amended (score : String → String → Nat) (query : String)
    (amovies : List (String × AMovie)) (hshort : (pyLower query).length < 2) :
    searchMovieApp score query amovies = SearchResult.usageError ∧
    (∀ (q2 : String) (titles : List String) (m : String × Nat),
      m ∈ searchCandidates score q2 titles → 60 < m.2) ∧
    (∀ (q2 : String) (titles : List String), (searchCandidates score q2 titles).length ≤ 5) ∧
    (∀ (q2 : String) (titles : List String),
      (searchCandidates score q2 titles).Pairwise (fun a b => b.2 ≤ a.2)) ∧
    (∀ (q2 : String) (amv : List (String × AMovie)), ¬ (pyLower q2).length < 2 →
      searchMovieApp score q2 amv =
        (if (searchCandidates score (pyLower q2) (amv.map Prod.fst)).map Prod.fst ≠ []
         then SearchResult.found
           ((searchCandidates score (pyLower q2) (amv.map Prod.fst)).map Prod.fst)
         else SearchResult.noneFound)) ∧
    (∀ (q2 : String) (mv : List (String × BMovie)),
      searchMovieBasic score q2 mv ≠ SearchResult.usageError) := by
  refine ⟨?_, ?_, ?_, ?_, ?_, ?_⟩
  · simp [searchMovieApp, hshort]
  · intro q2 titles m hm
    have := (List.mem_filter.mp hm).2
    simpa using this
  · intro q2 titles
    refine le_trans (List.length_filter_le _ _) ?_
    simp only [extractTop]
    rw [List.length_take]
    exact min_le_left _ _
  · intro q2 titles
    have hsorted : (sortLe (fun a b : String × Nat => b.2 ≤ a.2)
        (titles.map (fun t => (t, score q2 t)))).Pairwise
        (fun a b : String × Nat => b.2 ≤ a.2) :=
      pairwise_sortLe (fun a b : String × Nat => b.2 ≤ a.2)
        (fun a b => le_total b.2 a.2)
        (fun a b c hab hbc => le_trans hbc hab) _
    have htake := List.Pairwise.sublist (List.take_sublist 5 _) hsorted
    exact List.Pairwise.filter _ htake
  · intro q2 amv h
    simp only [searchMovieApp, if_neg h]
  · intro q2 mv
    by_cases hsim : ((searchCandidates score (pyLower q2) (mv.map Prod.fst)).map Prod.fst) ≠ []
    · simp [searchMovieBasic, hsim]
    · simp [searchMovieBasic, hsim]

/-- Witness for C8: the amended behaviour evaluated at a one-character
query (refused by the MovieApp variant) and at the candidate properties
of a concrete search. -/
theorem C8_search_amended_witness :
    ((pyLower "a").length < 2) ∧
    searchMovieApp (fun _ _ => 100) "a" [("Avatar", (⟨2009, some 7⟩ : AMovie))] =
      SearchResult.usageError ∧
    (searchCandidates (fun _ _ => 100) "av" ["Avatar"]).length ≤ 5 := by
  have h := C8_search_amended (fun _ _ => 100) "a" [("Avatar", (⟨2009, some 7⟩ : AMovie))]
    (by decide)
  exact ⟨by decide, h.1, h.2.2.1 "av" ["Avatar"]⟩

/-- C9: the dispatcher recovers from a non-integer selection ("x") and an
out-of-range selection ("99") and still reaches the exit state when 0 is
finally chosen; but an error arising inside an operation does terminate
the loop: selecting the filter command (10) on a nonempty catalog and
answering "abc" at the minimum-rating prompt raises an uncaught TypeError
(the range check of the prompt is mis-indented into its except branch and
compares an int with the unconverted string), ending the run without an
exit selection - the code contradicts the specified recovery contract. -/
theorem C9_dispatch_crash :
    runApp (appOps [("M", ⟨2000, some 5⟩)]) 5 ["x", "99", "", "10", "abc"] =
      RunResult.raised PyErr.typeError ∧
    runApp (appOps [("M", ⟨2000, some 5⟩)]) 5 ["x", "99", "", "0"] =
      RunResult.exited := ⟨by decide, by decide⟩

end MovieProject
